import Mathlib

/-!
# Lumiere Cinema: a shallow embedding of `src/main.js`

The page script filters and sorts a movie listing, derives a per-day
showtime schedule, and validates a ticket form.  The definitions below
follow the functions of `src/main.js` one by one and keep their names.

Conventions of the embedding

* A JavaScript string is a Lean `String` (a well-formed sequence of code
  points).  Where the script compares strings by UTF-16 code units
  (`Array.prototype.sort` without a comparator) the code units are
  computed explicitly by `codeUnits`.
* `String.prototype.toLowerCase` and `String.prototype.localeCompare`
  depend on the Unicode tables of the host.  They are fields of `Host`,
  and the general theorems hold for every host; `referenceHost` serves
  the evaluations on explicit inputs.  `localeCompare` is the comparison
  of collation sort keys, which is how a collator is specified.
* `Array.prototype.sort` is a stable sort.  It is modelled by insertion;
  `stableSort_unique` shows that for a consistent comparator no other
  stable sorted arrangement exists.
* Day keys are the seven weekday keys and `'today'`, and a `showtimes`
  object is the list of its own properties in enumeration order.
* A thrown `TypeError` is `Except.error`.
* A card is the record of the `data-*` attributes and texts the script
  reads back from the DOM.  `createMovieCard` gives the markup of a card
  as the record of the strings it interpolates; `renderMovies` reads the
  cards back.  Markup whose strings hold none of `&`, `<`, the double
  quote, carriage return and NUL reads back unchanged; what any other
  markup reads back as is a field of `Host`.
-/

namespace Lumiere

/-! ## JavaScript built-ins used by the script -/

/-- The code points of ECMAScript `WhiteSpace` and `LineTerminator`: what
`String.prototype.trim` strips, what `parseInt` skips and what the regular
expression class `\s` matches. -/
def isJsWhitespace (c : Char) : Bool :=
  c.toNat = 0x09 || c.toNat = 0x0A || c.toNat = 0x0B || c.toNat = 0x0C || c.toNat = 0x0D ||
  c.toNat = 0x20 || c.toNat = 0xA0 || c.toNat = 0x1680 ||
  (0x2000 ≤ c.toNat && c.toNat ≤ 0x200A) ||
  c.toNat = 0x2028 || c.toNat = 0x2029 || c.toNat = 0x202F || c.toNat = 0x205F ||
  c.toNat = 0x3000 || c.toNat = 0xFEFF

/-- Strip leading and trailing white space from a list of characters. -/
def trimChars (cs : List Char) : List Char :=
  ((cs.dropWhile isJsWhitespace).reverse.dropWhile isJsWhitespace).reverse

/-- `String.prototype.trim`. -/
def jsTrim (s : String) : String := ⟨trimChars s.data⟩

/-- `String.prototype.includes`: `sub` occurs in `s` as a contiguous run. -/
def includes (s sub : String) : Bool :=
  s.data.tails.any (fun t => sub.data.isPrefixOf t)

/-- `Array.prototype.join` on an array of strings. -/
def join (sep : String) : List String → String
  | [] => ""
  | [a] => a
  | a :: b :: rest => a ++ sep ++ join sep (b :: rest)

/-- The UTF-16 code units of one code point. -/
def utf16Units (c : Char) : List Nat :=
  if c.toNat < 0x10000 then [c.toNat]
  else [0xD800 + (c.toNat - 0x10000) / 0x400, 0xDC00 + (c.toNat - 0x10000) % 0x400]

/-- The UTF-16 code units of a string. -/
def codeUnits (s : String) : List Nat :=
  s.data.foldr (fun c acc => utf16Units c ++ acc) []

/-- Lexicographic three-way comparison of two key sequences: `-1`, `0`, `1`. -/
def lexCompare : List Nat → List Nat → Int
  | [], [] => 0
  | [], _ :: _ => -1
  | _ :: _, [] => 1
  | a :: as, b :: bs => if a < b then -1 else if b < a then 1 else lexCompare as bs

/-- The comparison `Array.prototype.sort` uses when it is given no comparator:
strings are ordered by their UTF-16 code units. -/
def defaultCompare (x y : String) : Int := lexCompare (codeUnits x) (codeUnits y)

/-- `parseInt(s, 10)`: skip leading white space, read an optional sign and the
longest run of decimal digits; `none` is `NaN` (no digit).  The value is exact
below `2 ^ 53`; the theorems that use it stay in that range. -/
def parseInt10 (s : String) : Option Int :=
  let cs := s.data.dropWhile isJsWhitespace
  let signed : Bool × List Char :=
    match cs with
    | '-' :: r => (true, r)
    | '+' :: r => (false, r)
    | r => (false, r)
  let digits := signed.2.takeWhile Char.isDigit
  if digits = [] then none
  else
    let n : Nat := digits.foldl (fun acc c => 10 * acc + (c.toNat - 48)) 0
    some (if signed.1 then -(n : Int) else (n : Int))

/-- `value || fallback` for a string read through optional chaining
(`element?.value || fallback`): the fallback replaces both a missing element
and the empty string. -/
def orDefault (value : Option String) (fallback : String) : String :=
  match value with
  | some v => if v = "" then fallback else v
  | none => fallback

/-- Insert `a` in front of the first element it does not follow. -/
def orderedInsert {α : Type} (le : α → α → Bool) (a : α) : List α → List α
  | [] => [a]
  | b :: l => if le a b then a :: b :: l else b :: orderedInsert le a l

/-- A stable sort by insertion.  `Array.prototype.sort` is required to be
stable, and for a consistent comparator the stable sorted arrangement of an
array is unique, so any stable sort computes what the host computes. -/
def stableSort {α : Type} (le : α → α → Bool) : List α → List α
  | [] => []
  | a :: l => orderedInsert le a (stableSort le l)

/-- `Array.prototype.sort(comparefn)`: `x` stays in front of `y` when
`comparefn(x, y)` is not positive; a `NaN` result (`none`) counts as `+0`. -/
def arraySort {α : Type} (comparefn : α → α → Option Int) (xs : List α) : List α :=
  stableSort (fun x y => match comparefn x y with
    | some v => decide (v ≤ 0)
    | none => true) xs

/-! ## Constants and utility functions -/

/-- The seven weekday keys. -/
inductive Weekday
  | sun | mon | tue | wed | thu | fri | sat
  deriving DecidableEq

/-- The property name of a weekday in a `showtimes` object. -/
def Weekday.key : Weekday → String
  | .sun => "sun" | .mon => "mon" | .tue => "tue" | .wed => "wed"
  | .thu => "thu" | .fri => "fri" | .sat => "sat"

/-- `const DAY_MAP = ['sun', 'mon', 'tue', 'wed', 'thu', 'fri', 'sat']` -/
def DAY_MAP : Fin 7 → Weekday
  | 0 => .sun | 1 => .mon | 2 => .tue | 3 => .wed | 4 => .thu | 5 => .fri | 6 => .sat

/-- A day selection: a weekday key or the sentinel `'today'`. -/
inductive DayKey
  | today
  | on (d : Weekday)
  deriving DecidableEq

/-- The `runtime` field of a catalog record as the script finds it. -/
inductive RuntimeValue
  /-- the property is absent (`undefined`) -/
  | missing
  /-- an integer number of minutes -/
  | number (n : Int)
  /-- any other value, given by the text a template literal renders for it -/
  | other (rendered : String)
  deriving DecidableEq

/-- A template literal's rendering of the runtime field. -/
def RuntimeValue.render : RuntimeValue → String
  | .missing => "undefined"
  | .number n => toString n
  | .other s => s

/-- A catalog record.  `showtimes` lists the own properties of the object in
enumeration order; `none` is an absent `showtimes` property.  The last four
fields are only written into the markup of a card; a record literal that
leaves them out has the empty string there. -/
structure Movie where
  id : String
  title : String
  genre : String
  rating : String
  runtime : RuntimeValue
  screen : Option Nat
  showtimes : Option (List (String × List String))
  genreLabel : String := ""
  image : String := ""
  alt : String := ""
  description : String := ""
  deriving DecidableEq

/-- `obj[key] || []` on a `showtimes` object for a weekday key. -/
def lookupTimes (obj : List (String × List String)) (key : String) : List String :=
  match obj.find? (fun p => p.1 == key) with
  | some p => p.2
  | none => []

/-! ## Movies page -/

/-- A `.movie-card`: its `data-*` attributes, the text of its `.movie-title`,
the showtimes line, `style.display`, and the four strings that are only shown.
As the value of `createMovieCard` it stands for the markup of the card, given
by the strings the template interpolates. -/
structure Card where
  movieId : String
  genre : String
  rating : String
  runtime : String
  hasShowtime : String
  title : String
  showtimesText : String
  display : String
  genreLabel : String := ""
  image : String := ""
  alt : String := ""
  description : String := ""
  deriving DecidableEq

/-- The characters that do not read back as themselves from markup: `&`
starts a character reference, `<` starts a tag, the double quote ends an
attribute value, a carriage return is normalized to a line feed and NUL is
dropped or replaced. -/
def isMarkupChar (c : Char) : Bool :=
  c.toNat = 38 || c.toNat = 60 || c.toNat = 34 || c.toNat = 13 || c.toNat = 0

/-- A string without markup characters: as element text and as a double-quoted
attribute value the HTML parser reads it back unchanged. -/
def isPlainText (s : String) : Bool := s.data.all (fun c => !isMarkupChar c)

/-- Every string interpolated into the markup of the card is plain. -/
def isPlainCard (card : Card) : Bool :=
  isPlainText card.movieId && isPlainText card.genre && isPlainText card.rating &&
  isPlainText card.runtime && isPlainText card.hasShowtime && isPlainText card.title &&
  isPlainText card.showtimesText && isPlainText card.genreLabel && isPlainText card.image &&
  isPlainText card.alt && isPlainText card.description

/-- Every string of the record that `createMovieCard` writes into markup is
plain: the fields, the rendering of the runtime, and the stored times. -/
def isPlainMovie (movie : Movie) : Bool :=
  isPlainText movie.id && isPlainText movie.title && isPlainText movie.genre &&
  isPlainText movie.rating && isPlainText movie.runtime.render &&
  isPlainText movie.genreLabel && isPlainText movie.image && isPlainText movie.alt &&
  isPlainText movie.description &&
  (match movie.showtimes with
   | none => true
   | some obj => obj.all (fun p => p.2.all isPlainText))

/-- The host environment: the locale-dependent string functions, the clock and
the HTML parser.  `localeCompare` compares the collation sort keys of its
arguments. -/
structure Host where
  /-- `String.prototype.toLowerCase` -/
  toLowerCase : String → String
  /-- The collation sort key of a string. -/
  collationKey : String → List Nat
  /-- `new Date().getDay()` at load time: 0 is Sunday. -/
  todayIndex : Fin 7
  /-- The cards `querySelectorAll('.movie-card')` finds after the markup of the
  given cards is assigned to `innerHTML`, for markup in which some interpolated
  string holds a markup character. -/
  parseCards : List Card → List Card

/-- `String.prototype.localeCompare`. -/
def Host.localeCompare (h : Host) (a b : String) : Int :=
  lexCompare (h.collationKey a) (h.collationKey b)

/-- Decode the character references `&amp;`, `&lt;` and `&gt;`. -/
def decodeReferences : List Char → List Char
  | [] => []
  | '&' :: 'a' :: 'm' :: 'p' :: ';' :: rest => '&' :: decodeReferences rest
  | '&' :: 'l' :: 't' :: ';' :: rest => '<' :: decodeReferences rest
  | '&' :: 'g' :: 't' :: ';' :: rest => '>' :: decodeReferences rest
  | c :: rest => c :: decodeReferences rest

/-- A concrete host for evaluating the script on explicit inputs: ASCII
lower-casing, collation by code units, a Monday clock, and in place of the HTML
parser the decoding of the character references `&amp;`, `&lt;` and `&gt;` in
the strings of a card, which is what the parser does on the inputs evaluated
below. -/
def referenceHost : Host where
  toLowerCase := fun s => ⟨s.data.map Char.toLower⟩
  collationKey := codeUnits
  todayIndex := 1
  parseCards := fun cards => cards.map (fun card =>
    { card with
      movieId := ⟨decodeReferences card.movieId.data⟩
      genre := ⟨decodeReferences card.genre.data⟩
      rating := ⟨decodeReferences card.rating.data⟩
      runtime := ⟨decodeReferences card.runtime.data⟩
      title := ⟨decodeReferences card.title.data⟩
      showtimesText := ⟨decodeReferences card.showtimesText.data⟩
      genreLabel := ⟨decodeReferences card.genreLabel.data⟩
      image := ⟨decodeReferences card.image.data⟩
      alt := ⟨decodeReferences card.alt.data⟩
      description := ⟨decodeReferences card.description.data⟩ })

/-- `const TODAY_NAME = DAY_MAP[TODAY_INDEX]` -/
def TODAY_NAME (h : Host) : Weekday := DAY_MAP h.todayIndex

/-- `const normalizeText = (text) => text.toLowerCase().trim()` -/
def normalizeText (h : Host) (text : String) : String := jsTrim (h.toLowerCase text)

/-- `day === 'today' ? TODAY_NAME : day` -/
def resolveDay (h : Host) : DayKey → Weekday
  | .today => TODAY_NAME h
  | .on d => d

/-- The function `getShowtimesForDay`:
`(movie.showtimes[dayKey] || []).join(', ')`.
Reading a property of an absent `showtimes` throws a `TypeError`. -/
def getShowtimesForDay (h : Host) (movie : Movie) (day : DayKey) : Except String String :=
  match movie.showtimes with
  | none => .error "TypeError: Cannot read properties of undefined"
  | some obj => .ok (join ", " (lookupTimes obj (resolveDay h day).key))

/-- The function `createMovieCard`: the markup of the card of one record. -/
def createMovieCard (movie : Movie) (showtimes : String) : Card where
  movieId := movie.id
  genre := movie.genre
  rating := movie.rating
  runtime := movie.runtime.render
  hasShowtime := if showtimes ≠ "" then "yes" else "no"
  title := movie.title
  showtimesText := if showtimes ≠ "" then showtimes else "No showtimes available"
  display := ""
  genreLabel := movie.genreLabel
  image := movie.image
  alt := movie.alt
  description := movie.description

/-- The markup `renderMovies` builds, `window.MOVIES.map(...)`: one card per
catalog record, in catalog order; the first `TypeError` aborts the whole
rendering. -/
def cardMarkup (h : Host) : List Movie → DayKey → Except String (List Card)
  | [], _ => .ok []
  | movie :: rest, selectedDay =>
    match getShowtimesForDay h movie selectedDay with
    | .error e => .error e
    | .ok showtimes =>
      match cardMarkup h rest selectedDay with
      | .error e => .error e
      | .ok cards => .ok (createMovieCard movie showtimes :: cards)

/-- The function `renderMovies` up to `movieCards`: the markup is assigned to
`moviesList.innerHTML` and the cards are read back from the document.  Plain
markup reads back as it was written; anything else is for the parser of the
host to say. -/
def renderMovies (h : Host) (MOVIES : List Movie) (selectedDay : DayKey) :
    Except String (List Card) :=
  match cardMarkup h MOVIES selectedDay with
  | .error e => .error e
  | .ok markup => .ok (if markup.all isPlainCard then markup else h.parseCards markup)

/-- The function `toggleElement`: `element.style.display = show ? '' : 'none'`. -/
def toggleElement (element : Card) (visible : Bool) : Card :=
  { element with display := if visible then "" else "none" }

/-- The body of the filter loop of `applyFiltersAndSort` for one card. -/
def filterCard (h : Host) (searchValue selectedGenre : String) (card : Card) : Card :=
  let title := normalizeText h card.title
  let genre := card.genre
  let hasShowtime := decide (card.hasShowtime = "yes")
  let matchesSearch := decide (searchValue = "") || includes title searchValue
  let matchesGenre := decide (selectedGenre = "all") || decide (genre = selectedGenre)
  toggleElement card (matchesSearch && matchesGenre && hasShowtime)

/-- The filter step of `applyFiltersAndSort`. -/
def filterCards (h : Host) (searchInput genreSelect : Option String)
    (movieCards : List Card) : List Card :=
  let searchValue := normalizeText h (orDefault searchInput "")
  let selectedGenre := orDefault genreSelect "all"
  movieCards.map (filterCard h searchValue selectedGenre)

/-- The test `card.style.display !== 'none'`. -/
def isVisible (card : Card) : Bool := card.display != "none"

/-- `parseInt(card.dataset.runtime || '0', 10)` -/
def cardRuntime (card : Card) : Option Int :=
  parseInt10 (if card.runtime = "" then "0" else card.runtime)

/-- The comparator of `sortCards`: `comparison * multiplier`; `none` is `NaN`. -/
def compareCards (h : Host) (sortBy order : String) (a b : Card) : Option Int :=
  let multiplier : Int := if order = "desc" then -1 else 1
  let comparison : Option Int :=
    if sortBy = "title" then
      some (h.localeCompare (normalizeText h a.title) (normalizeText h b.title))
    else if sortBy = "rating" then
      some (h.localeCompare a.rating b.rating)
    else if sortBy = "runtime" then
      match cardRuntime a, cardRuntime b with
      | some runtimeA, some runtimeB => some (runtimeA - runtimeB)
      | _, _ => none
    else some 0
  comparison.map (fun c => c * multiplier)

/-- The function `sortCards`: the sequence `sorted` whose cards are appended to
the list element one after the other. -/
def sortCards (h : Host) (cards : List Card) (sortBy order : String) : List Card :=
  arraySort (compareCards h sortBy order) cards

/-- The function `applyFiltersAndSort`: the cards with their visibility set,
and the visible cards in their sorted order. -/
def applyFiltersAndSort (h : Host) (searchInput genreSelect sortSelect orderSelect : Option String)
    (movieCards : List Card) : List Card × List Card :=
  if movieCards = [] then (movieCards, [])
  else
    let sortValue := orDefault sortSelect "title"
    let sortOrder := orDefault orderSelect "asc"
    let filtered := filterCards h searchInput genreSelect movieCards
    (filtered, sortCards h (filtered.filter isVisible) sortValue sortOrder)

/-- A card whose runtime attribute reads as an integer a double holds exactly. -/
def hasIntegerRuntime (card : Card) : Bool :=
  match cardRuntime card with
  | some n => decide (n.natAbs ≤ 2 ^ 53)
  | none => false

/-- A consistent comparator on the elements that satisfy `P`: swapping the
arguments flips the sign, and "not after" is transitive. -/
def Consistent {α : Type} (cmp : α → α → Int) (P : α → Prop) : Prop :=
  (∀ x y, P x → P y → cmp y x = - cmp x y) ∧
  (∀ x y z, P x → P y → P z → cmp x y ≤ 0 → cmp y z ≤ 0 → cmp x z ≤ 0)

/-! ## Schedule page -/

/-- One showing of the schedule: `{ time, screen, movie, rating }`. -/
structure ScheduleEntry where
  time : String
  screen : String
  movie : String
  rating : String
  deriving DecidableEq

/-- One table row of `renderSchedule`: the showings of a title on one day. -/
structure GroupedRow where
  movie : String
  rating : String
  screen : String
  times : List String
  deriving DecidableEq

/-- The value of `schedule[day]`. -/
structure ScheduleDay where
  label : String
  entries : List ScheduleEntry
  deriving DecidableEq

/-- `movie.showtimes?.[day] || []` -/
def movieTimes (movie : Movie) (day : Weekday) : List String :=
  match movie.showtimes with
  | none => []
  | some obj => lookupTimes obj day.key

/-- The entry pushed for one time of one movie. -/
def entryOf (movie : Movie) (time : String) : ScheduleEntry where
  time := time
  screen := "Screen " ++ toString (match movie.screen with
    | some n => if n = 0 then 1 else n
    | none => 1)
  movie := movie.title
  rating := movie.rating

/-- The entries pushed for one day, in the order of the two nested `forEach`
loops: catalog order, and stored order within a movie. -/
def emitEntries : List Movie → Weekday → List ScheduleEntry
  | [], _ => []
  | movie :: rest, day => (movieTimes movie day).map (entryOf movie) ++ emitEntries rest day

/-- `const days = ['mon', 'tue', 'wed', 'thu', 'fri', 'sat', 'sun']` -/
def days : List Weekday := [.mon, .tue, .wed, .thu, .fri, .sat, .sun]

/-- The table `dayLabels`. -/
def dayLabels : Weekday → String
  | .mon => "Monday" | .tue => "Tuesday" | .wed => "Wednesday" | .thu => "Thursday"
  | .fri => "Friday" | .sat => "Saturday" | .sun => "Sunday"

/-- The function `generateSchedule`: for every day the label and the entries
sorted by `a.time.localeCompare(b.time)`. -/
def generateSchedule (h : Host) (MOVIES : List Movie) : List (Weekday × ScheduleDay) :=
  days.map (fun day =>
    (day, { label := dayLabels day,
            entries := arraySort (fun a b => some (h.localeCompare a.time b.time))
              (emitEntries MOVIES day) }))

/-- The property names every plain object inherits from `Object.prototype`.
Reading one of them from `{}` gives a function (or the prototype itself), which
is truthy. -/
def objectPrototypeKeys : List String :=
  ["constructor", "__defineGetter__", "__defineSetter__", "hasOwnProperty",
   "__lookupGetter__", "__lookupSetter__", "isPrototypeOf", "propertyIsEnumerable",
   "toString", "valueOf", "__proto__", "toLocaleString"]

/-- The array index a property name stands for: a canonical decimal numeral
below `2 ^ 32 - 1`. -/
def arrayIndex? (key : String) : Option Nat :=
  let cs := key.data
  if cs ≠ [] ∧ cs.all Char.isDigit = true ∧ (cs = ['0'] ∨ cs.head? ≠ some '0') then
    let n : Nat := cs.foldl (fun acc c => 10 * acc + (c.toNat - 48)) 0
    if n < 2 ^ 32 - 1 then some n else none
  else none

/-- `Object.values` of a plain object given by its own properties in creation
order: the properties named by an array index come first, in ascending index
order, then the others in creation order. -/
def objectValues {β : Type} (props : List (String × β)) : List β :=
  let indexed := props.filterMap (fun p => (arrayIndex? p.1).map (fun i => (i, p.2)))
  let named := props.filter (fun p => (arrayIndex? p.1).isNone)
  (stableSort (fun a b => decide (a.1 ≤ b.1)) indexed).map (fun p => p.2) ++
    named.map (fun p => p.2)

/-- One step of the `reduce` of `renderSchedule`, on the own properties of
`acc`.  For a title that `acc` inherits but does not own, `acc[entry.movie]` is
truthy, no group is created, and `acc[entry.movie].times.push` throws. -/
def groupStep (acc : List (String × GroupedRow)) (entry : ScheduleEntry) :
    Except String (List (String × GroupedRow)) :=
  if acc.any (fun p => p.1 == entry.movie) then
    .ok (acc.map (fun p =>
      if p.1 = entry.movie then (p.1, { p.2 with times := p.2.times ++ [entry.time] }) else p))
  else if entry.movie ∈ objectPrototypeKeys then
    .error "TypeError: Cannot read properties of undefined"
  else
    .ok (acc ++ [(entry.movie,
      { movie := entry.movie, rating := entry.rating, screen := entry.screen,
        times := [entry.time] })])

/-- `entries.reduce(..., {})`: the own properties of `groupedByMovie`. -/
def groupByMovie (entries : List ScheduleEntry) : Except String (List (String × GroupedRow)) :=
  entries.foldl (fun acc entry =>
    match acc with
    | .error e => .error e
    | .ok a => groupStep a entry) (.ok [])

/-- The function `renderSchedule`, up to the rows `movieEntries` of the table:
no rows when the day has no data or no entries (the "No schedule available"
paragraph), else the groups sorted by `a.times[0].localeCompare(b.times[0])`. -/
def renderSchedule (h : Host) (scheduleData : List (Weekday × ScheduleDay)) (dayKey : Weekday) :
    Except String (List GroupedRow) :=
  match scheduleData.find? (fun p => p.1 = dayKey) with
  | none => .ok []
  | some data =>
    if data.2.entries = [] then .ok []
    else
      match groupByMovie data.2.entries with
      | .error e => .error e
      | .ok groupedByMovie =>
        .ok (arraySort
          (fun a b => some (h.localeCompare (a.times.headD "") (b.times.headD "")))
          (objectValues groupedByMovie))

/-! ## Tickets page -/

/-- The character class of `/^[a-zA-Z\s'-]+$/`. -/
def namePatternClass (c : Char) : Bool :=
  (97 ≤ c.toNat && c.toNat ≤ 122) || (65 ≤ c.toNat && c.toNat ≤ 90) ||
  isJsWhitespace c || c.toNat = 39 || c.toNat = 45

/-- `namePattern.test(name)`: one or more characters, all of the class. -/
def namePatternTest (name : String) : Bool :=
  decide (name.data ≠ []) && name.data.all namePatternClass

/-- The function `validateName`. -/
def validateName (name : String) : String :=
  if name = "" ∨ jsTrim name = "" then "Please enter your full name."
  else if namePatternTest name = false then
    "Name can only contain letters, spaces, hyphens, and apostrophes."
  else ""

/-- `String.prototype.split` with a one-character separator. -/
def splitChars (sep : Char) : List Char → List (List Char)
  | [] => [[]]
  | c :: cs =>
    if c = sep then [] :: splitChars sep cs
    else
      match splitChars sep cs with
      | [] => [[c]]
      | part :: parts => (c :: part) :: parts

/-- `email.split('@')` -/
def splitOnAt (email : String) : List String :=
  (splitChars (Char.ofNat 64) email.data).map String.mk

/-- The function `validateEmail`. -/
def validateEmail (email : String) : String :=
  if email = "" ∨ jsTrim email = "" then "Please enter your email address."
  else if includes email "@" = false then
    "Please enter a valid email address (must contain @)."
  else
    let emailParts := splitOnAt email
    if emailParts.length ≠ 2 ∨ (emailParts.getD 0 "") = "" ∨ (emailParts.getD 1 "") = "" then
      "Please enter a valid email address."
    else if includes (emailParts.getD 1 "") "." = false then
      "Please enter a valid email address (e.g., name@example.com)."
    else ""

/-- The values of the five form controls; `none` is a missing element. -/
structure FormInputs where
  name : Option String
  email : Option String
  movie : Option String
  showtime : Option String
  qty : Option String
  deriving DecidableEq

/-- The `textContent` of the five error elements; `none` is a missing element. -/
structure ErrorElements where
  name : Option String
  email : Option String
  movie : Option String
  showtime : Option String
  qty : Option String
  deriving DecidableEq

/-- What the submit handler leaves behind: the error texts, the text of the
success element, and whether `ticketForm.reset()` ran (the submission was
accepted). -/
structure FormState where
  errors : ErrorElements
  successMessage : Option String
  accepted : Bool
  deriving DecidableEq

/-- The function `clearErrors`. -/
def clearErrors (state : FormState) : FormState :=
  { state with
    errors :=
      { name := state.errors.name.map (fun _ => "")
        email := state.errors.email.map (fun _ => "")
        movie := state.errors.movie.map (fun _ => "")
        showtime := state.errors.showtime.map (fun _ => "")
        qty := state.errors.qty.map (fun _ => "") }
    successMessage := state.successMessage.map (fun _ => "") }

/-- The body of the error loop for one key: the new text of the element, and
whether `isValid` was set to `false`. -/
def showError (message : String) (element : Option String) : Option String × Bool :=
  match element with
  | some text => if message ≠ "" then (some message, true) else (some text, false)
  | none => (none, false)

/-- The submit handler of the ticket form. -/
def submit (inputs : FormInputs) (state : FormState) : FormState :=
  let cleared := clearErrors state
  let name := inputs.name.getD ""
  let email := inputs.email.getD ""
  let movie := inputs.movie.getD ""
  let showtime := inputs.showtime.getD ""
  let qty := inputs.qty.getD ""
  let eName := showError (validateName name) cleared.errors.name
  let eEmail := showError (validateEmail email) cleared.errors.email
  let eMovie := showError (if movie = "" then "Please select a movie." else "")
    cleared.errors.movie
  let eShowtime := showError (if showtime = "" then "Please choose a showtime." else "")
    cleared.errors.showtime
  let eQty := showError (if qty = "" then "Please choose how many seats you need." else "")
    cleared.errors.qty
  let errors : ErrorElements :=
    { name := eName.1, email := eEmail.1, movie := eMovie.1, showtime := eShowtime.1,
      qty := eQty.1 }
  let isValid := !(eName.2 || eEmail.2 || eMovie.2 || eShowtime.2 || eQty.2)
  if isValid = false then { errors := errors, successMessage := cleared.successMessage,
                            accepted := false }
  else
    { errors := errors
      successMessage := cleared.successMessage.map (fun _ =>
        "Thank you, " ++ name ++ "! Your booking for \"" ++ movie ++ "\" at " ++ showtime ++
        " for " ++ qty ++ " ticket(s) has been submitted. A confirmation email will be sent to " ++
        email ++ ".")
      accepted := true }

/-- `allTimes.add(time)` on a `Set` kept in insertion order. -/
def setAdd (set : List String) (value : String) : List String :=
  if value ∈ set then set else set ++ [value]

/-- The function `updateShowtimes`: the options of the showtime select as
`(value, text)` pairs; `none` when the select element is missing. -/
def updateShowtimes (h : Host) (MOVIES : List Movie) (showtimeSelect : Option (List (String × String)))
    (movieTitle : String) : Option (List (String × String)) :=
  match showtimeSelect with
  | none => none
  | some _ =>
    if movieTitle = "" then some [("", "Select a showtime...")]
    else
      match MOVIES.find? (fun m => h.toLowerCase m.title == h.toLowerCase movieTitle) with
      | none => some [("", "No showtimes available")]
      | some movie =>
        match movie.showtimes with
        | none => some [("", "No showtimes available")]
        | some obj =>
          let allTimes := obj.foldl (fun set dayTimes => dayTimes.2.foldl setAdd set) []
          let times := arraySort (fun a b => some (defaultCompare a b)) allTimes
          some (("", "Select a showtime...") :: times.map (fun time => (time, time)))

/-- A small catalog for evaluating the script on explicit inputs. -/
def sampleMovies : List Movie :=
  [ { id := "heat", title := "Heat", genre := "crime", rating := "R",
      runtime := .number 170, screen := none,
      showtimes := some [("mon", ["21:00"]), ("tue", ["20:15"])] },
    { id := "up", title := "Up", genre := "family", rating := "PG",
      runtime := .number 96, screen := some 2,
      showtimes := some [("mon", ["10:00", "14:30"])] },
    { id := "dune", title := "Dune", genre := "scifi", rating := "PG-13",
      runtime := .number 155, screen := some 1,
      showtimes := some [("mon", ["14:30", "10:00"]), ("wed", ["18:00"])] } ]

/-- The cards `renderMovies` builds from `sampleMovies` for Monday. -/
def sampleCards : List Card :=
  [ createMovieCard
      { id := "heat", title := "Heat", genre := "crime", rating := "R",
        runtime := .number 170, screen := none,
        showtimes := some [("mon", ["21:00"]), ("tue", ["20:15"])] } "21:00",
    createMovieCard
      { id := "up", title := "Up", genre := "family", rating := "PG",
        runtime := .number 96, screen := some 2,
        showtimes := some [("mon", ["10:00", "14:30"])] } "10:00, 14:30",
    createMovieCard
      { id := "dune", title := "Dune", genre := "scifi", rating := "PG-13",
        runtime := .number 155, screen := some 1,
        showtimes := some [("mon", ["14:30", "10:00"]), ("wed", ["18:00"])] } "14:30, 10:00" ]

/-- A catalog in which a title is an array index: both movies start at 10:00
on Monday. -/
def numericTitleMovies : List Movie :=
  [ { id := "dune", title := "Dune", genre := "scifi", rating := "PG-13",
      runtime := .number 155, screen := some 1, showtimes := some [("mon", ["10:00"])] },
    { id := "1917", title := "1917", genre := "war", rating := "R",
      runtime := .number 119, screen := some 2, showtimes := some [("mon", ["10:00"])] } ]

/-- A catalog whose only title is a property name every object inherits. -/
def inheritedTitleMovies : List Movie :=
  [ { id := "c1", title := "constructor", genre := "drama", rating := "PG",
      runtime := .number 100, screen := some 1, showtimes := some [("mon", ["10:00"])] } ]

/-- A catalog whose only record has the empty string as its title. -/
def untitledMovies : List Movie :=
  [ { id := "u1", title := "", genre := "drama", rating := "PG",
      runtime := .number 100, screen := some 1, showtimes := some [("mon", ["10:00"])] } ]

/-- A catalog whose second record has no `runtime` property. -/
def missingRuntimeMovies : List Movie :=
  [ { id := "heat", title := "Heat", genre := "crime", rating := "R",
      runtime := .number 170, screen := none, showtimes := some [("mon", ["21:00"])] },
    { id := "up", title := "Up", genre := "family", rating := "PG",
      runtime := .missing, screen := some 2, showtimes := some [("mon", ["10:00"])] } ]

/-- The catalog `missingRuntimeMovies` with the missing runtime replaced by 0. -/
def zeroRuntimeMovies : List Movie :=
  [ { id := "heat", title := "Heat", genre := "crime", rating := "R",
      runtime := .number 170, screen := none, showtimes := some [("mon", ["21:00"])] },
    { id := "up", title := "Up", genre := "family", rating := "PG",
      runtime := .number 0, screen := some 2, showtimes := some [("mon", ["10:00"])] } ]

/-- A catalog whose only title is written with a character reference. -/
def entityTitleMovies : List Movie :=
  [ { id := "rj", title := "Romeo &amp; Juliet", genre := "drama", rating := "PG-13",
      runtime := .number 120, screen := some 1, showtimes := some [("mon", ["19:00"])] } ]

/-- The cards read back from the document after `renderMovies` on
`entityTitleMovies` for Monday: the text of the title element is the decoded
title. -/
def entityTitleCards : List Card :=
  [ { movieId := "rj", genre := "drama", rating := "PG-13", runtime := "120",
      hasShowtime := "yes", title := "Romeo & Juliet", showtimesText := "19:00",
      display := "" } ]

/-! ## Theorems -/

/-! ### Sorting -/

section SortLemmas
variable {α : Type} (le : α → α → Bool)

theorem orderedInsert_perm (a : α) (l : List α) : (orderedInsert le a l).Perm (a :: l) := by
  induction l with
  | nil => exact List.Perm.refl _
  | cons b l ih =>
    unfold orderedInsert
    split
    · exact List.Perm.refl _
    · exact (List.Perm.cons b ih).trans (List.Perm.swap a b l)

theorem stableSort_perm (l : List α) : (stableSort le l).Perm l := by
  induction l with
  | nil => exact List.Perm.refl _
  | cons a l ih =>
    exact (orderedInsert_perm le a _).trans (List.Perm.cons a ih)

theorem mem_orderedInsert {a x : α} {l : List α} :
    x ∈ orderedInsert le a l ↔ x = a ∨ x ∈ l := by
  rw [(orderedInsert_perm le a l).mem_iff, List.mem_cons]

theorem mem_stableSort {x : α} {l : List α} : x ∈ stableSort le l ↔ x ∈ l :=
  (stableSort_perm le l).mem_iff

theorem orderedInsert_pairwise (a : α) (l : List α)
    (htot : ∀ x ∈ l, le a x = true ∨ le x a = true)
    (htrans : ∀ x ∈ l, ∀ y ∈ l, le a x = true → le x y = true → le a y = true)
    (hs : l.Pairwise (fun x y => le x y = true)) :
    (orderedInsert le a l).Pairwise (fun x y => le x y = true) := by
  induction l with
  | nil => simp [orderedInsert]
  | cons b l ih =>
    rw [List.pairwise_cons] at hs
    unfold orderedInsert
    by_cases hab : le a b = true
    · rw [if_pos hab]
      refine List.Pairwise.cons ?_ (List.Pairwise.cons hs.1 hs.2)
      intro x hx
      rcases List.mem_cons.mp hx with rfl | hx
      · exact hab
      · exact htrans b (by simp) x (by simp [hx]) hab (hs.1 x hx)
    · rw [if_neg hab]
      refine List.Pairwise.cons ?_ ?_
      · intro x hx
        rcases (mem_orderedInsert le).mp hx with rfl | hx
        · rcases htot b (by simp) with hle | hle
          · exact absurd hle hab
          · exact hle
        · exact hs.1 x hx
      · exact ih (fun x hx => htot x (by simp [hx]))
          (fun x hx y hy => htrans x (by simp [hx]) y (by simp [hy])) hs.2

theorem stableSort_pairwise (l : List α)
    (htot : ∀ x ∈ l, ∀ y ∈ l, le x y = true ∨ le y x = true)
    (htrans : ∀ x ∈ l, ∀ y ∈ l, ∀ z ∈ l, le x y = true → le y z = true → le x z = true) :
    (stableSort le l).Pairwise (fun x y => le x y = true) := by
  induction l with
  | nil => simp [stableSort]
  | cons a l ih =>
    unfold stableSort
    apply orderedInsert_pairwise
    · intro x hx
      exact htot a (by simp) x (by simp [(mem_stableSort le).mp hx])
    · intro x hx y hy
      exact htrans a (by simp) x (by simp [(mem_stableSort le).mp hx]) y
        (by simp [(mem_stableSort le).mp hy])
    · exact ih (fun x hx y hy => htot x (by simp [hx]) y (by simp [hy]))
        (fun x hx y hy z hz => htrans x (by simp [hx]) y (by simp [hy]) z (by simp [hz]))

theorem sublist_orderedInsert (a : α) (l : List α) : List.Sublist l (orderedInsert le a l) := by
  induction l with
  | nil => simp
  | cons b l ih =>
    unfold orderedInsert
    split
    · exact List.sublist_cons_self _ _
    · exact ih.cons₂ b

theorem cons_sublist_orderedInsert (a : α) {c l : List α} (hc : List.Sublist c l)
    (ha : ∀ x ∈ c, le a x = true) : List.Sublist (a :: c) (orderedInsert le a l) := by
  induction l generalizing c with
  | nil =>
    rw [List.sublist_nil] at hc
    subst hc
    simp [orderedInsert]
  | cons b l ih =>
    unfold orderedInsert
    by_cases hab : le a b = true
    · rw [if_pos hab]
      exact hc.cons₂ a
    · rw [if_neg hab]
      cases hc with
      | cons _ hc' => exact (ih hc' ha).cons b
      | cons₂ _ hc' => exact absurd (ha b (by simp)) hab

theorem stableSort_sublist {c l : List α} (hc : List.Sublist c l)
    (hp : c.Pairwise (fun x y => le x y = true)) : List.Sublist c (stableSort le l) := by
  induction l generalizing c with
  | nil =>
    rw [List.sublist_nil] at hc
    subst hc
    simp
  | cons a l ih =>
    unfold stableSort
    cases hc with
    | cons _ hc' => exact (ih hc' hp).trans (sublist_orderedInsert le a _)
    | cons₂ _ hc' =>
      rw [List.pairwise_cons] at hp
      exact cons_sublist_orderedInsert le a (ih hc' hp.2) hp.1

theorem stableSort_filter (p : α → Bool) (l : List α)
    (hp : ∀ x ∈ l, ∀ y ∈ l, p x = true → p y = true → le x y = true) :
    (stableSort le l).filter p = l.filter p := by
  have hpw : (l.filter p).Pairwise (fun x y => le x y = true) := by
    have : ∀ l' : List α, (∀ x ∈ l', x ∈ l ∧ p x = true) →
        l'.Pairwise (fun x y => le x y = true) := by
      intro l' hl'
      induction l' with
      | nil => exact List.Pairwise.nil
      | cons a l' ih =>
        refine List.Pairwise.cons ?_ (ih (fun x hx => hl' x (by simp [hx])))
        intro x hx
        exact hp a (hl' a (by simp)).1 x (hl' x (by simp [hx])).1 (hl' a (by simp)).2
          (hl' x (by simp [hx])).2
    exact this _ (fun x hx => by simpa using List.mem_filter.mp hx)
  have hsub : List.Sublist (l.filter p) (stableSort le l) :=
    stableSort_sublist le (List.filter_sublist l) hpw
  have hsub' : List.Sublist (l.filter p) ((stableSort le l).filter p) := by
    have := hsub.filter p
    simpa [List.filter_filter] using this
  have hlen : ((stableSort le l).filter p).length = (l.filter p).length :=
    ((stableSort_perm le l).filter p).length_eq
  exact (hsub'.eq_of_length hlen.symm).symm

end SortLemmas

/-! ### The stable sorted arrangement is unique -/

theorem stable_sorted_unique {α : Type} (le : α → α → Bool)
    (htot : ∀ x y, le x y = true ∨ le y x = true) :
    ∀ out s : List α, out.Perm s →
      out.Pairwise (fun x y => le x y = true) → s.Pairwise (fun x y => le x y = true) →
      (∀ a, out.filter (fun c => le a c && le c a) = s.filter (fun c => le a c && le c a)) →
      out = s := by
  have hrefl : ∀ x, le x x = true := fun x => (htot x x).elim id id
  intro out
  induction out with
  | nil =>
    intro s hperm _ _ _
    exact (List.Perm.nil_eq hperm)
  | cons x out ih =>
    intro s hperm hout hs hcls
    cases s with
    | nil => exact absurd hperm.symm.nil_eq (by simp)
    | cons y s =>
      rw [List.pairwise_cons] at hout hs
      have hxy : le x y = true := by
        have : y ∈ x :: out := hperm.symm.subset (by simp)
        rcases List.mem_cons.mp this with rfl | hy
        · exact hrefl _
        · exact hout.1 y hy
      have hyx : le y x = true := by
        have : x ∈ y :: s := hperm.subset (by simp)
        rcases List.mem_cons.mp this with rfl | hx
        · exact hrefl _
        · exact hs.1 x hx
      have hhead := hcls x
      simp only [List.filter_cons, hrefl x, hxy, hyx, Bool.and_self, if_true,
        List.cons.injEq] at hhead
      obtain ⟨rfl, -⟩ := hhead
      have htail : ∀ a, out.filter (fun c => le a c && le c a) =
          s.filter (fun c => le a c && le c a) := by
        intro a
        have := hcls a
        simp only [List.filter_cons] at this
        split at this
        · exact (List.cons.inj this).2
        · exact this
      rw [ih s (List.Perm.cons_inv hperm) hout.2 hs.2 htail]

/-- For a comparator that is total and transitive, the stable sorted
arrangement of a list is unique: a permutation of the list that is sorted and
keeps every class of tied elements in input order is the result of
`stableSort`. -/
theorem stableSort_unique {α : Type} (le : α → α → Bool)
    (htot : ∀ x y, le x y = true ∨ le y x = true)
    (htrans : ∀ x y z, le x y = true → le y z = true → le x z = true)
    (l out : List α) (hperm : out.Perm l)
    (hsorted : out.Pairwise (fun x y => le x y = true))
    (hstable : ∀ a, out.filter (fun c => le a c && le c a) =
      l.filter (fun c => le a c && le c a)) :
    out = stableSort le l := by
  apply stable_sorted_unique le htot out (stableSort le l)
    (hperm.trans (stableSort_perm le l).symm) hsorted
    (stableSort_pairwise le l (fun x _ y _ => htot x y)
      (fun x _ y _ z _ => htrans x y z))
  intro a
  rw [hstable a]
  symm
  apply stableSort_filter
  intro x _ y _ hx hy
  rw [Bool.and_eq_true] at hx hy
  exact htrans x a y hx.2 hy.1

theorem lexCompare_flip : ∀ a b : List Nat, lexCompare b a = - lexCompare a b
  | [], [] => by simp [lexCompare]
  | [], _ :: _ => by simp [lexCompare]
  | _ :: _, [] => by simp [lexCompare]
  | a :: as, b :: bs => by
    have ih := lexCompare_flip as bs
    unfold lexCompare
    by_cases h1 : a < b
    · have h2 : ¬ b < a := by omega
      simp [h1, h2]
    · by_cases h2 : b < a
      · simp [h1, h2]
      · simp [h1, h2, ih]

theorem lexCompare_eq_zero : ∀ a b : List Nat, lexCompare a b = 0 ↔ a = b
  | [], [] => by simp [lexCompare]
  | [], _ :: _ => by simp [lexCompare]
  | _ :: _, [] => by simp [lexCompare]
  | a :: as, b :: bs => by
    have ih := lexCompare_eq_zero as bs
    unfold lexCompare
    by_cases h1 : a < b
    · have : a ≠ b := by omega
      simp [h1, this]
    · by_cases h2 : b < a
      · have : a ≠ b := by omega
        simp [h1, h2, this]
      · have : a = b := by omega
        simp [h1, h2, ih, this]

theorem lexCompare_trans : ∀ a b c : List Nat,
    lexCompare a b ≤ 0 → lexCompare b c ≤ 0 → lexCompare a c ≤ 0
  | [], _, [] => by simp [lexCompare]
  | [], _, _ :: _ => by simp [lexCompare]
  | _ :: _, [], _ => by simp [lexCompare]
  | _ :: _, _ :: _, [] => by simp [lexCompare]
  | a :: as, b :: bs, c :: cs => by
    have ih := lexCompare_trans as bs cs
    unfold lexCompare
    by_cases hab : a < b
    · by_cases hbc : b < c
      · have : a < c := by omega
        simp [this]
      · by_cases hcb : c < b
        · simp [hab, hbc, hcb]
        · have : a < c := by omega
          simp [this]
    · by_cases hba : b < a
      · simp [hab, hba]
      · have hab' : a = b := by omega
        subst hab'
        by_cases hbc : a < c
        · simp [hbc]
        · by_cases hcb : c < a
          · simp [hbc, hcb]
          · simpa [hab, hbc, hcb] using ih


/-! ### Strings -/

theorem string_append_eq_empty (a b : String) : a ++ b = "" ↔ a = "" ∧ b = "" := by
  constructor
  · intro hab
    have hd : a.data ++ b.data = [] := by
      have := congrArg String.data hab
      simpa using this
    rw [List.append_eq_nil] at hd
    exact ⟨String.ext hd.1, String.ext hd.2⟩
  · rintro ⟨rfl, rfl⟩
    rfl

/-- Joining time strings none of which is empty gives the empty string only
for the empty list. -/
theorem join_eq_empty_iff (sep : String) (l : List String) (hne : ∀ t ∈ l, t ≠ "") :
    join sep l = "" ↔ l = [] := by
  match l with
  | [] => simp [join]
  | [a] =>
    have ha : a ≠ "" := hne a (by simp)
    simp [join, ha]
  | a :: b :: rest =>
    have ha : a ≠ "" := hne a (by simp)
    simp [join, string_append_eq_empty, ha]

theorem includes_iff_contiguous (s sub : String) :
    includes s sub = true ↔ sub.data <:+: s.data := by
  unfold includes
  rw [List.any_eq_true]
  constructor
  · rintro ⟨t, ht, hp⟩
    rw [List.mem_tails] at ht
    have hpre : sub.data <+: t := List.isPrefixOf_iff_prefix.mp hp
    exact hpre.isInfix.trans ht.isInfix
  · rintro ⟨pre, post, hs⟩
    refine ⟨sub.data ++ post, ?_, ?_⟩
    · rw [List.mem_tails]
      exact ⟨pre, by rw [← hs, List.append_assoc]⟩
    · exact List.isPrefixOf_iff_prefix.mpr (List.prefix_append _ _)

/-! ### Movies page: rendering and the filter step -/

theorem isVisible_toggleElement (card : Card) (visible : Bool) :
    isVisible (toggleElement card visible) = visible := by
  cases visible <;> simp [isVisible, toggleElement]

theorem getShowtimesForDay_ok (h : Host) (movie : Movie) (day : DayKey)
    (obj : List (String × List String)) (hobj : movie.showtimes = some obj) :
    getShowtimesForDay h movie day = .ok (join ", " (lookupTimes obj (resolveDay h day).key)) := by
  simp [getShowtimesForDay, hobj]

/-- Visibility of the card that the filter loop leaves for one movie. -/
theorem filterCard_visible_iff (h : Host) (searchValue selectedGenre : String) (movie : Movie)
    (showtimes : String) :
    isVisible (filterCard h searchValue selectedGenre (createMovieCard movie showtimes)) = true ↔
      (searchValue = "" ∨ searchValue.data <:+: (normalizeText h movie.title).data) ∧
      (selectedGenre = "all" ∨ movie.genre = selectedGenre) ∧
      showtimes ≠ "" := by
  unfold filterCard
  rw [isVisible_toggleElement]
  simp only [Bool.and_eq_true, Bool.or_eq_true, decide_eq_true_eq, includes_iff_contiguous,
    createMovieCard]
  by_cases hs : showtimes = "" <;> simp [hs]

theorem cardMarkup_filter_contract (h : Host) (searchValue selectedGenre : String)
    (selectedDay : DayKey) :
    ∀ (MOVIES : List Movie) (movieCards : List Card),
      cardMarkup h MOVIES selectedDay = .ok movieCards →
      List.Forall₂
        (fun movie card =>
          (isVisible card = true ↔
            (searchValue = "" ∨ searchValue.data <:+: (normalizeText h movie.title).data) ∧
            (selectedGenre = "all" ∨ movie.genre = selectedGenre) ∧
            ∃ showtimes, getShowtimesForDay h movie selectedDay = .ok showtimes ∧
              showtimes ≠ ""))
        MOVIES (movieCards.map (filterCard h searchValue selectedGenre)) := by
  intro MOVIES
  induction MOVIES with
  | nil =>
    intro movieCards hr
    simp only [cardMarkup, Except.ok.injEq] at hr
    subst hr
    exact List.Forall₂.nil
  | cons movie rest ih =>
    intro movieCards hr
    unfold cardMarkup at hr
    cases hs : getShowtimesForDay h movie selectedDay with
    | error e => rw [hs] at hr; cases hr
    | ok showtimes =>
      rw [hs] at hr
      cases hrest : cardMarkup h rest selectedDay with
      | error e => rw [hrest] at hr; cases hr
      | ok cards =>
        rw [hrest] at hr
        simp only [Except.ok.injEq] at hr
        subst hr
        rw [List.map_cons]
        refine List.Forall₂.cons ?_ (ih cards hrest)
        rw [filterCard_visible_iff, hs]
        simp

theorem isPlainText_append (a b : String) :
    isPlainText (a ++ b) = (isPlainText a && isPlainText b) := by
  simp [isPlainText, String.data_append, List.all_append]

theorem isPlainText_join (l : List String) (hl : ∀ t ∈ l, isPlainText t = true) :
    isPlainText (join ", " l) = true := by
  match l with
  | [] => rfl
  | [a] => exact hl a (by simp)
  | a :: b :: rest =>
    have ih := isPlainText_join (b :: rest) (fun t ht => hl t (by simp [ht]))
    have hsep : isPlainText ", " = true := by decide
    simp only [join, isPlainText_append, hl a (by simp), hsep, ih, Bool.and_self]

theorem mem_lookupTimes (obj : List (String × List String)) (key t : String)
    (ht : t ∈ lookupTimes obj key) : ∃ p ∈ obj, t ∈ p.2 := by
  unfold lookupTimes at ht
  cases hfind : obj.find? (fun p => p.1 == key) with
  | none => simp [hfind] at ht
  | some p =>
    rw [hfind] at ht
    exact ⟨p, List.mem_of_find?_eq_some hfind, ht⟩

/-- The markup of a plain record is plain. -/
theorem isPlainCard_createMovieCard (h : Host) (movie : Movie) (selectedDay : DayKey)
    (showtimes : String) (hplain : isPlainMovie movie = true)
    (hget : getShowtimesForDay h movie selectedDay = .ok showtimes) :
    isPlainCard (createMovieCard movie showtimes) = true := by
  unfold isPlainMovie at hplain
  simp only [Bool.and_eq_true] at hplain
  obtain ⟨⟨⟨⟨⟨⟨⟨⟨⟨hid, htitle⟩, hgenre⟩, hrating⟩, hruntime⟩, hlabel⟩, himage⟩, halt⟩, hdesc⟩,
    htimes⟩ := hplain
  have hshow : isPlainText showtimes = true := by
    cases hobj : movie.showtimes with
    | none => simp [getShowtimesForDay, hobj] at hget
    | some obj =>
      rw [getShowtimesForDay_ok h movie selectedDay obj hobj] at hget
      simp only [Except.ok.injEq] at hget
      rw [← hget]
      apply isPlainText_join
      intro t ht
      obtain ⟨p, hp, htp⟩ := mem_lookupTimes obj _ t ht
      rw [hobj] at htimes
      simp only [List.all_eq_true] at htimes
      exact htimes p hp t htp
  have hyes : isPlainText "yes" = true := by decide
  have hno : isPlainText "no" = true := by decide
  have hnone : isPlainText "No showtimes available" = true := by decide
  unfold isPlainCard createMovieCard
  by_cases hs : showtimes = ""
  · simp [hs, hid, htitle, hgenre, hrating, hruntime, hlabel, himage, halt, hdesc, hno, hnone]
  · simp [hs, hid, htitle, hgenre, hrating, hruntime, hlabel, himage, halt, hdesc, hyes, hshow]

theorem cardMarkup_plain (h : Host) (selectedDay : DayKey) :
    ∀ (MOVIES : List Movie) (markup : List Card),
      cardMarkup h MOVIES selectedDay = .ok markup →
      (∀ m ∈ MOVIES, isPlainMovie m = true) →
      markup.all isPlainCard = true := by
  intro MOVIES
  induction MOVIES with
  | nil =>
    intro markup hr _
    simp only [cardMarkup, Except.ok.injEq] at hr
    subst hr
    rfl
  | cons movie rest ih =>
    intro markup hr hplain
    unfold cardMarkup at hr
    cases hs : getShowtimesForDay h movie selectedDay with
    | error e => rw [hs] at hr; cases hr
    | ok showtimes =>
      rw [hs] at hr
      cases hrest : cardMarkup h rest selectedDay with
      | error e => rw [hrest] at hr; cases hr
      | ok cards =>
        rw [hrest] at hr
        simp only [Except.ok.injEq] at hr
        subst hr
        rw [List.all_cons, isPlainCard_createMovieCard h movie selectedDay showtimes
          (hplain movie (by simp)) hs, ih cards hrest (fun m hm => hplain m (by simp [hm]))]
        rfl

/-- For a catalog of plain records the cards read back from the document are
the markup that was written. -/
theorem renderMovies_of_plain (h : Host) (MOVIES : List Movie) (selectedDay : DayKey)
    (hplain : ∀ m ∈ MOVIES, isPlainMovie m = true) :
    renderMovies h MOVIES selectedDay = cardMarkup h MOVIES selectedDay := by
  unfold renderMovies
  cases hm : cardMarkup h MOVIES selectedDay with
  | error e => rfl
  | ok markup =>
    simp only [cardMarkup_plain h selectedDay MOVIES markup hm hplain, if_true]

/-- C1 (amended): for a catalog whose records write no markup character (`&`,
`<`, the double quote, carriage return, NUL) into the card markup, after the
filter step of `applyFiltersAndSort` the card of a movie is
visible exactly when (a) the normalized search text is empty or occurs in the
normalized title, (b) the selected genre is `all` or is the movie's genre, and
(c) `getShowtimesForDay` gives a non-empty result for the selected day; when no
stored time string is empty, (c) says that the movie has a showtime that day. -/
theorem C1_filter_step_visibility (h : Host) (MOVIES : List Movie)
    (searchInput genreSelect sortSelect orderSelect : Option String)
    (selectedDay : DayKey) (movieCards : List Card)
    (hplain : ∀ m ∈ MOVIES, isPlainMovie m = true)
    (hrender : renderMovies h MOVIES selectedDay = .ok movieCards) :
    List.Forall₂
      (fun movie card =>
        (isVisible card = true ↔
          (normalizeText h (orDefault searchInput "") = "" ∨
            (normalizeText h (orDefault searchInput "")).data <:+:
              (normalizeText h movie.title).data) ∧
          (orDefault genreSelect "all" = "all" ∨ movie.genre = orDefault genreSelect "all") ∧
          ∃ showtimes, getShowtimesForDay h movie selectedDay = .ok showtimes ∧
            showtimes ≠ "") ∧
        ((∃ showtimes, getShowtimesForDay h movie selectedDay = .ok showtimes ∧
            showtimes ≠ "") →
          ∃ obj, movie.showtimes = some obj ∧
            lookupTimes obj (resolveDay h selectedDay).key ≠ []) ∧
        (∀ obj, movie.showtimes = some obj →
          lookupTimes obj (resolveDay h selectedDay).key ≠ [] →
          (∀ t ∈ lookupTimes obj (resolveDay h selectedDay).key, t ≠ "") →
          ∃ showtimes, getShowtimesForDay h movie selectedDay = .ok showtimes ∧
            showtimes ≠ ""))
      MOVIES
      (applyFiltersAndSort h searchInput genreSelect sortSelect orderSelect movieCards).1 := by
  have hfst : (applyFiltersAndSort h searchInput genreSelect sortSelect orderSelect movieCards).1
      = filterCards h searchInput genreSelect movieCards := by
    unfold applyFiltersAndSort
    by_cases hnil : movieCards = []
    · simp [hnil, filterCards]
    · simp [hnil]
  rw [hfst]
  unfold filterCards
  rw [renderMovies_of_plain h MOVIES selectedDay hplain] at hrender
  refine (cardMarkup_filter_contract h _ _ selectedDay MOVIES movieCards hrender).imp ?_
  intro movie card hvis
  refine ⟨hvis, ?_, ?_⟩
  · rintro ⟨showtimes, hget, hne⟩
    cases hobj : movie.showtimes with
    | none => simp [getShowtimesForDay, hobj] at hget
    | some obj =>
      refine ⟨obj, rfl, ?_⟩
      intro hnil
      rw [getShowtimesForDay_ok h movie selectedDay obj hobj, hnil] at hget
      simp only [join, Except.ok.injEq] at hget
      exact hne hget.symm
  · intro obj hobj hnonempty htimes
    refine ⟨_, getShowtimesForDay_ok h movie selectedDay obj hobj, ?_⟩
    intro hjoin
    exact hnonempty ((join_eq_empty_iff ", " _ htimes).mp hjoin)

/-- C10 (failing input): a record without a `showtimes` property makes
`getShowtimesForDay` throw on every host and for every day key, while the
schedule builder reads the same property through `?.` and gets no times. -/
theorem C10_getShowtimesForDay_throws_without_showtimes (h : Host) (day : DayKey) :
    getShowtimesForDay h
      { id := "m1", title := "Dune", genre := "scifi", rating := "PG-13",
        runtime := .number 155, screen := some 1, showtimes := none } day
      = .error "TypeError: Cannot read properties of undefined" := by
  rfl

/-! ### `Array.prototype.sort` with a consistent comparator -/

theorem arraySort_perm {α : Type} (comparefn : α → α → Option Int) (l : List α) :
    (arraySort comparefn l).Perm l :=
  stableSort_perm _ l

theorem arraySort_pairwise {α : Type} (comparefn : α → α → Option Int) (cmp : α → α → Int)
    (P : α → Prop) (l : List α) (hP : ∀ x ∈ l, P x)
    (hcmp : ∀ x y, P x → P y → comparefn x y = some (cmp x y))
    (hcons : Consistent cmp P) :
    (arraySort comparefn l).Pairwise (fun x y => cmp x y ≤ 0) := by
  have hle : ∀ x ∈ l, ∀ y ∈ l,
      ((match comparefn x y with
        | some v => decide (v ≤ 0)
        | none => true) = true ↔ cmp x y ≤ 0) := by
    intro x hx y hy
    rw [hcmp x y (hP x hx) (hP y hy)]
    simp
  have hsorted := stableSort_pairwise
    (fun x y => match comparefn x y with
      | some v => decide (v ≤ 0)
      | none => true) l
    (by
      intro x hx y hy
      rw [hle x hx y hy, hle y hy x hx, hcons.1 x y (hP x hx) (hP y hy)]
      omega)
    (by
      intro x hx y hy z hz
      rw [hle x hx y hy, hle y hy z hz, hle x hx z hz]
      exact hcons.2 x y z (hP x hx) (hP y hy) (hP z hz))
  unfold arraySort
  refine hsorted.imp_of_mem ?_
  intro x y hx hy hxy
  exact (hle x ((mem_stableSort _).mp hx) y ((mem_stableSort _).mp hy)).mp hxy

theorem arraySort_pair_stable {α : Type} (comparefn : α → α → Option Int) (l : List α)
    (a b : α) (htie : comparefn a b = some 0) (hab : List.Sublist [a, b] l) :
    List.Sublist [a, b] (arraySort comparefn l) := by
  unfold arraySort
  apply stableSort_sublist _ hab
  simp [htie]

theorem arraySort_class_stable {α : Type} (comparefn : α → α → Option Int) (cmp : α → α → Int)
    (P : α → Prop) (l : List α) (hP : ∀ x ∈ l, P x)
    (hcmp : ∀ x y, P x → P y → comparefn x y = some (cmp x y))
    (hcons : Consistent cmp P) (a : α) (ha : P a) :
    (arraySort comparefn l).filter (fun c => decide (cmp a c = 0)) =
      l.filter (fun c => decide (cmp a c = 0)) := by
  unfold arraySort
  apply stableSort_filter
  intro x hx y hy hax hay
  rw [hcmp x y (hP x hx) (hP y hy)]
  simp only [decide_eq_true_eq] at hax hay ⊢
  have hxa : cmp x a ≤ 0 := by rw [hcons.1 a x ha (hP x hx)]; omega
  exact hcons.2 x a y (hP x hx) ha (hP y hy) hxa (by omega)

theorem consistent_mul {α : Type} (cmp : α → α → Int) (P : α → Prop) (hc : Consistent cmp P)
    (m : Int) (hm : m = 1 ∨ m = -1) : Consistent (fun x y => cmp x y * m) P := by
  rcases hm with rfl | rfl
  · simpa using hc
  · refine ⟨?_, ?_⟩
    · intro x y hx hy
      simp only [hc.1 x y hx hy]
      ring
    · intro x y z hx hy hz hxy hyz
      dsimp only at hxy hyz ⊢
      have h1 : cmp y x ≤ 0 := by rw [hc.1 x y hx hy]; omega
      have h2 : cmp z y ≤ 0 := by rw [hc.1 y z hy hz]; omega
      have h3 := hc.2 z y x hz hy hx h2 h1
      rw [hc.1 x z hx hz] at h3
      omega

theorem consistent_localeCompare {α : Type} (h : Host) (key : α → String) :
    Consistent (fun a b => h.localeCompare (key a) (key b)) (fun _ => True) :=
  ⟨fun _ _ _ _ => lexCompare_flip _ _, fun _ _ _ _ _ _ => lexCompare_trans _ _ _⟩

theorem consistent_runtime :
    Consistent (fun a b : Card => (cardRuntime a).getD 0 - (cardRuntime b).getD 0)
      (fun _ => True) :=
  ⟨fun _ _ _ _ => by ring, fun _ _ _ _ _ _ h1 h2 => by dsimp only at h1 h2 ⊢; omega⟩

theorem multiplier_cases (order : String) :
    (if order = "desc" then (-1 : Int) else 1) = 1 ∨
      (if order = "desc" then (-1 : Int) else 1) = -1 := by
  by_cases ho : order = "desc" <;> simp [ho]

theorem compareCards_title (h : Host) (order : String) (a b : Card) :
    compareCards h "title" order a b =
      some (h.localeCompare (normalizeText h a.title) (normalizeText h b.title) *
        (if order = "desc" then -1 else 1)) := by
  simp [compareCards]

theorem compareCards_rating (h : Host) (order : String) (a b : Card) :
    compareCards h "rating" order a b =
      some (h.localeCompare a.rating b.rating * (if order = "desc" then -1 else 1)) := by
  simp [compareCards]

theorem hasIntegerRuntime_iff (c : Card) :
    hasIntegerRuntime c = true ↔ ∃ n : Int, cardRuntime c = some n ∧ n.natAbs ≤ 2 ^ 53 := by
  unfold hasIntegerRuntime
  cases hc : cardRuntime c <;> simp

theorem compareCards_runtime (h : Host) (order : String) (a b : Card)
    (ha : hasIntegerRuntime a = true) (hb : hasIntegerRuntime b = true) :
    compareCards h "runtime" order a b =
      some (((cardRuntime a).getD 0 - (cardRuntime b).getD 0) *
        (if order = "desc" then -1 else 1)) := by
  obtain ⟨m, hm, -⟩ := (hasIntegerRuntime_iff a).mp ha
  obtain ⟨n, hn, -⟩ := (hasIntegerRuntime_iff b).mp hb
  simp [compareCards, hm, hn]

/-! ### Rendering an integer runtime and reading it back -/

theorem digitChar_spec : ∀ k : Fin 10,
    (Nat.digitChar k.val).isDigit = true ∧ (Nat.digitChar k.val).toNat - 48 = k.val ∧
    isJsWhitespace (Nat.digitChar k.val) = false ∧ Nat.digitChar k.val ≠ '-' ∧
    Nat.digitChar k.val ≠ '+' := by
  decide

theorem toDigitsCore_spec (fuel : Nat) : ∀ (n : Nat) (ds : List Char), n < fuel →
    ∃ D : List Char, Nat.toDigitsCore 10 fuel n ds = D ++ ds ∧ D ≠ [] ∧
      (∀ c ∈ D, c.isDigit = true) ∧
      D.foldl (fun acc c => 10 * acc + (c.toNat - 48)) 0 = n := by
  induction fuel with
  | zero => intro n ds hn; omega
  | succ fuel ih =>
    intro n ds hn
    have hd := digitChar_spec ⟨n % 10, Nat.mod_lt n (by omega)⟩
    simp only at hd
    unfold Nat.toDigitsCore
    by_cases h0 : n / 10 = 0
    · refine ⟨[Nat.digitChar (n % 10)], by simp [h0], by simp, ?_, ?_⟩
      · intro c hc
        rw [List.mem_singleton] at hc
        rw [hc]
        exact hd.1
      · simp only [List.foldl_cons, List.foldl_nil]
        rw [hd.2.1]
        omega
    · obtain ⟨D, hD, hne, hdig, hval⟩ := ih (n / 10) (Nat.digitChar (n % 10) :: ds) (by omega)
      refine ⟨D ++ [Nat.digitChar (n % 10)], by simp [h0, hD], by simp, ?_, ?_⟩
      · intro c hc
        rw [List.mem_append, List.mem_singleton] at hc
        rcases hc with hc | hc
        · exact hdig c hc
        · rw [hc]
          exact hd.1
      · rw [List.foldl_append, hval]
        simp only [List.foldl_cons, List.foldl_nil]
        rw [hd.2.1]
        omega

theorem repr_spec (n : Nat) :
    ∃ D : List Char, (toString n).data = D ∧ D ≠ [] ∧ (∀ c ∈ D, c.isDigit = true) ∧
      D.foldl (fun acc c => 10 * acc + (c.toNat - 48)) 0 = n := by
  obtain ⟨D, hD, hne, hdig, hval⟩ := toDigitsCore_spec (n + 1) n [] (by omega)
  refine ⟨D, ?_, hne, hdig, hval⟩
  show (Nat.repr n).data = D
  unfold Nat.repr Nat.toDigits
  rw [hD]
  simp [List.asString]

theorem isDigit_not_special (c : Char) (hc : c.isDigit = true) :
    isJsWhitespace c = false ∧ c ≠ '-' ∧ c ≠ '+' := by
  have h1 : 48 ≤ c.toNat ∧ c.toNat ≤ 57 := by
    unfold Char.isDigit at hc
    simp only [Bool.and_eq_true, decide_eq_true_eq] at hc
    have := hc.1
    have := hc.2
    simp only [UInt32.le_def, Fin.le_def] at *
    refine ⟨?_, ?_⟩
    · exact hc.1
    · exact hc.2
  refine ⟨?_, ?_, ?_⟩
  · unfold isJsWhitespace
    simp
    omega
  · rintro rfl
    simp at h1
  · rintro rfl
    simp at h1
theorem takeWhile_all {α : Type} (p : α → Bool) (l : List α) (hall : ∀ x ∈ l, p x = true) :
    l.takeWhile p = l := by
  induction l with
  | nil => rfl
  | cons a l ih =>
    rw [List.takeWhile_cons, hall a (by simp), ih (fun x hx => hall x (by simp [hx]))]
    rfl

theorem parseInt10_digits (s : String) (D : List Char) (hs : s.data = D) (hne : D ≠ [])
    (hdig : ∀ c ∈ D, c.isDigit = true) :
    parseInt10 s = some ((D.foldl (fun acc c => 10 * acc + (c.toNat - 48)) 0 : Nat) : Int) := by
  cases D with
  | nil => exact absurd rfl hne
  | cons c D =>
    obtain ⟨hw, hminus, hplus⟩ := isDigit_not_special c (hdig c (by simp))
    unfold parseInt10
    rw [hs]
    simp only [List.dropWhile_cons, hw]
    have hmatch : (match (c :: D : List Char) with
        | '-' :: r => (true, r)
        | '+' :: r => (false, r)
        | r => (false, r)) = (false, c :: D) := by
      split
      · rename_i heq
        exact absurd (List.cons.inj heq).1 hminus
      · rename_i heq
        exact absurd (List.cons.inj heq).1 hplus
      · rfl
    simp only [Bool.false_eq_true, if_false, hmatch, takeWhile_all _ _ hdig]
    simp

theorem parseInt10_minus_digits (s : String) (D : List Char) (hs : s.data = '-' :: D)
    (hne : D ≠ []) (hdig : ∀ c ∈ D, c.isDigit = true) :
    parseInt10 s =
      some (-((D.foldl (fun acc c => 10 * acc + (c.toNat - 48)) 0 : Nat) : Int)) := by
  have hw : isJsWhitespace '-' = false := by decide
  unfold parseInt10
  rw [hs]
  simp only [List.dropWhile_cons, hw, Bool.false_eq_true, if_false, takeWhile_all _ _ hdig]
  simp [hne]

/-- Reading back the rendering of an integer runtime gives the integer. -/
theorem parseInt10_render (n : Int) : parseInt10 (toString n) = some n := by
  cases n with
  | ofNat m =>
    obtain ⟨D, hD, hne, hdig, hval⟩ := repr_spec m
    have hs : (toString (Int.ofNat m)).data = D := hD
    rw [parseInt10_digits _ D hs hne hdig, hval]
    rfl
  | negSucc m =>
    obtain ⟨D, hD, hne, hdig, hval⟩ := repr_spec (m + 1)
    have hs : (toString (Int.negSucc m)).data = '-' :: D := by
      show ("-" ++ toString (m + 1)).data = '-' :: D
      rw [String.data_append, hD]
      rfl
    rw [parseInt10_minus_digits _ D hs hne hdig, hval]
    rfl

/-- The card of a catalog record whose runtime is an integer a double holds
exactly carries an integer runtime. -/
theorem hasIntegerRuntime_createMovieCard (movie : Movie) (showtimes : String) (n : Int)
    (hn : movie.runtime = .number n) (hbound : n.natAbs ≤ 2 ^ 53) :
    hasIntegerRuntime (createMovieCard movie showtimes) = true ∧
    cardRuntime (createMovieCard movie showtimes) = some n := by
  have hne : toString n ≠ "" := by
    intro hempty
    have hread := parseInt10_render n
    rw [hempty] at hread
    have hnone : parseInt10 "" = none := by decide
    rw [hnone] at hread
    cases hread
  have hrun : cardRuntime (createMovieCard movie showtimes) = some n := by
    unfold cardRuntime createMovieCard
    simp only [hn, RuntimeValue.render, if_neg hne]
    exact parseInt10_render n
  refine ⟨?_, hrun⟩
  rw [hasIntegerRuntime_iff]
  exact ⟨n, hrun, hbound⟩
theorem cardMarkup_integer_runtimes (h : Host) (selectedDay : DayKey) :
    ∀ (MOVIES : List Movie) (movieCards : List Card),
      cardMarkup h MOVIES selectedDay = .ok movieCards →
      (∀ m ∈ MOVIES, ∃ n : Int, m.runtime = .number n ∧ n.natAbs ≤ 2 ^ 53) →
      ∀ c ∈ movieCards, hasIntegerRuntime c = true := by
  intro MOVIES
  induction MOVIES with
  | nil =>
    intro movieCards hr _ c hc
    simp only [cardMarkup, Except.ok.injEq] at hr
    subst hr
    simp at hc
  | cons movie rest ih =>
    intro movieCards hr hint c hc
    unfold cardMarkup at hr
    cases hs : getShowtimesForDay h movie selectedDay with
    | error e => rw [hs] at hr; cases hr
    | ok showtimes =>
      rw [hs] at hr
      cases hrest : cardMarkup h rest selectedDay with
      | error e => rw [hrest] at hr; cases hr
      | ok cards =>
        rw [hrest] at hr
        simp only [Except.ok.injEq] at hr
        subst hr
        rcases List.mem_cons.mp hc with rfl | hc
        · obtain ⟨n, hn, hb⟩ := hint movie (by simp)
          exact (hasIntegerRuntime_createMovieCard movie showtimes n hn hb).1
        · exact ih cards hrest (fun m hm => hint m (by simp [hm])) c hc

/-- The cards that `applyFiltersAndSort` hands to `sortCards` carry integer
runtimes when the catalog records are plain and do. -/
theorem visible_cards_integer_runtimes (h : Host) (MOVIES : List Movie)
    (searchInput genreSelect : Option String) (selectedDay : DayKey) (movieCards : List Card)
    (hplain : ∀ m ∈ MOVIES, isPlainMovie m = true)
    (hrender : renderMovies h MOVIES selectedDay = .ok movieCards)
    (hint : ∀ m ∈ MOVIES, ∃ n : Int, m.runtime = .number n ∧ n.natAbs ≤ 2 ^ 53) :
    ∀ c ∈ (filterCards h searchInput genreSelect movieCards).filter isVisible,
      hasIntegerRuntime c = true := by
  intro c hc
  have hc' := (List.mem_filter.mp hc).1
  unfold filterCards at hc'
  rw [List.mem_map] at hc'
  obtain ⟨card, hcard, rfl⟩ := hc'
  rw [renderMovies_of_plain h MOVIES selectedDay hplain] at hrender
  have := cardMarkup_integer_runtimes h selectedDay MOVIES movieCards hrender hint card hcard
  simpa [hasIntegerRuntime, cardRuntime, filterCard, toggleElement] using this

/-! ### The sort step -/

theorem sortCards_chain (h : Host) (cards : List Card) (sortBy order : String)
    (cmp : Card → Card → Int) (P : Card → Prop) (hP : ∀ c ∈ cards, P c)
    (hcmp : ∀ a b, P a → P b → compareCards h sortBy order a b = some (cmp a b))
    (hcons : Consistent cmp P) (R : Card → Card → Prop)
    (hR : ∀ a b, P a → P b → cmp a b ≤ 0 → R a b) :
    (sortCards h cards sortBy order).Chain' R := by
  have hpw := arraySort_pairwise (compareCards h sortBy order) cmp P cards hP hcmp hcons
  have hmem : ∀ c ∈ sortCards h cards sortBy order, P c := fun c hc =>
    hP c ((arraySort_perm _ cards).mem_iff.mp hc)
  apply List.Pairwise.chain'
  exact hpw.imp_of_mem (fun ha hb hab => hR _ _ (hmem _ ha) (hmem _ hb) hab)

/-- C2: `sortCards` returns a permutation of its input; sorted by `title`,
`rating` or `runtime`, each adjacent pair is in non-decreasing key order when
the order is `asc` and in non-increasing key order when it is `desc`.  The key
is the normalized title or the raw rating code, compared by `localeCompare`, or
the integer runtime.  With a collation that puts `PG` before `PG-13` before `R`
(the reference host among them), ratings `R, PG, PG-13` sort ascending to
`PG, PG-13, R`. -/
theorem C2_sortCards_sorted_permutation (h : Host) (cards : List Card)
    (hruntime : ∀ c ∈ cards, hasIntegerRuntime c = true) :
    (∀ sortBy order, (sortCards h cards sortBy order).Perm cards) ∧
    (sortCards h cards "title" "asc").Chain' (fun a b =>
      h.localeCompare (normalizeText h a.title) (normalizeText h b.title) ≤ 0) ∧
    (sortCards h cards "title" "desc").Chain' (fun a b =>
      0 ≤ h.localeCompare (normalizeText h a.title) (normalizeText h b.title)) ∧
    (sortCards h cards "rating" "asc").Chain' (fun a b =>
      h.localeCompare a.rating b.rating ≤ 0) ∧
    (sortCards h cards "rating" "desc").Chain' (fun a b =>
      0 ≤ h.localeCompare a.rating b.rating) ∧
    (sortCards h cards "runtime" "asc").Chain' (fun a b =>
      ∃ m n : Int, cardRuntime a = some m ∧ cardRuntime b = some n ∧ m ≤ n) ∧
    (sortCards h cards "runtime" "desc").Chain' (fun a b =>
      ∃ m n : Int, cardRuntime a = some m ∧ cardRuntime b = some n ∧ n ≤ m) ∧
    (∀ r pg pg13 : Card, r.rating = "R" → pg.rating = "PG" → pg13.rating = "PG-13" →
      h.localeCompare "PG" "PG-13" < 0 → h.localeCompare "PG-13" "R" < 0 →
      sortCards h [r, pg, pg13] "rating" "asc" = [pg, pg13, r]) ∧
    (sortCards referenceHost sampleCards "rating" "asc").map (fun c => c.rating)
      = ["PG", "PG-13", "R"] := by
  refine ⟨fun sortBy order => arraySort_perm _ cards, ?_, ?_, ?_, ?_, ?_, ?_, ?_, ?_⟩
  · exact sortCards_chain h cards "title" "asc" _ (fun _ => True) (fun _ _ => trivial)
      (fun a b _ _ => compareCards_title h "asc" a b)
      (consistent_mul _ _ (consistent_localeCompare h (fun c : Card => normalizeText h c.title)) _
        (multiplier_cases "asc")) _
      (fun a b _ _ hab => by simpa using hab)
  · exact sortCards_chain h cards "title" "desc" _ (fun _ => True) (fun _ _ => trivial)
      (fun a b _ _ => compareCards_title h "desc" a b)
      (consistent_mul _ _ (consistent_localeCompare h (fun c : Card => normalizeText h c.title)) _
        (multiplier_cases "desc")) _
      (fun a b _ _ hab => by simpa using hab)
  · exact sortCards_chain h cards "rating" "asc" _ (fun _ => True) (fun _ _ => trivial)
      (fun a b _ _ => compareCards_rating h "asc" a b)
      (consistent_mul _ _ (consistent_localeCompare h (fun c : Card => c.rating)) _
        (multiplier_cases "asc")) _
      (fun a b _ _ hab => by simpa using hab)
  · exact sortCards_chain h cards "rating" "desc" _ (fun _ => True) (fun _ _ => trivial)
      (fun a b _ _ => compareCards_rating h "desc" a b)
      (consistent_mul _ _ (consistent_localeCompare h (fun c : Card => c.rating)) _
        (multiplier_cases "desc")) _
      (fun a b _ _ hab => by simpa using hab)
  · refine sortCards_chain h cards "runtime" "asc" _ (fun c => hasIntegerRuntime c = true)
      hruntime (fun a b ha hb => compareCards_runtime h "asc" a b ha hb)
      (consistent_mul _ _ ⟨fun x y _ _ => consistent_runtime.1 x y trivial trivial,
        fun x y z _ _ _ => consistent_runtime.2 x y z trivial trivial trivial⟩ _
        (multiplier_cases "asc")) _ ?_
    intro a b ha hb hab
    obtain ⟨m, hm, -⟩ := (hasIntegerRuntime_iff a).mp ha
    obtain ⟨n, hn, -⟩ := (hasIntegerRuntime_iff b).mp hb
    refine ⟨m, n, hm, hn, ?_⟩
    simp [hm, hn] at hab
    omega
  · refine sortCards_chain h cards "runtime" "desc" _ (fun c => hasIntegerRuntime c = true)
      hruntime (fun a b ha hb => compareCards_runtime h "desc" a b ha hb)
      (consistent_mul _ _ ⟨fun x y _ _ => consistent_runtime.1 x y trivial trivial,
        fun x y z _ _ _ => consistent_runtime.2 x y z trivial trivial trivial⟩ _
        (multiplier_cases "desc")) _ ?_
    intro a b ha hb hab
    obtain ⟨m, hm, -⟩ := (hasIntegerRuntime_iff a).mp ha
    obtain ⟨n, hn, -⟩ := (hasIntegerRuntime_iff b).mp hb
    refine ⟨m, n, hm, hn, ?_⟩
    simp [hm, hn] at hab
    omega
  · intro r pg pg13 hr hpg hpg13 h1 h2
    have h3 : 0 < h.localeCompare "R" "PG-13" := by
      have := lexCompare_flip (h.collationKey "PG-13") (h.collationKey "R")
      unfold Host.localeCompare at h2 ⊢
      omega
    have h4 : 0 < h.localeCompare "R" "PG" := by
      by_contra hcon
      have := lexCompare_trans (h.collationKey "R") (h.collationKey "PG")
        (h.collationKey "PG-13") (by unfold Host.localeCompare at hcon; omega)
        (by unfold Host.localeCompare at h1; omega)
      unfold Host.localeCompare at h3
      omega
    have e1 : ¬ h.localeCompare "R" "PG" ≤ 0 := by omega
    have e2 : ¬ h.localeCompare "R" "PG-13" ≤ 0 := by omega
    have e3 : h.localeCompare "PG" "PG-13" ≤ 0 := by omega
    simp [sortCards, arraySort, stableSort, orderedInsert, compareCards, hr, hpg, hpg13,
      e1, e2, e3]
  · decide

theorem compareCards_tie_any_order (h : Host) (sortBy order : String) (a b : Card)
    (htie : compareCards h sortBy "asc" a b = some 0) :
    compareCards h sortBy order a b = some 0 := by
  unfold compareCards at htie ⊢
  by_cases h1 : sortBy = "title"
  · simp only [h1, if_true, Option.map_some', Option.some.injEq] at htie ⊢
    simp at htie
    simp [htie]
  · by_cases h2 : sortBy = "rating"
    · simp only [h1, h2, if_true, if_false, Option.map_some', Option.some.injEq] at htie ⊢
      simp at htie
      simp [htie]
    · by_cases h3 : sortBy = "runtime"
      · simp only [h1, h2, h3, if_true, if_false] at htie ⊢
        cases ha : cardRuntime a with
        | none => simp [ha] at htie
        | some m =>
          cases hb : cardRuntime b with
          | none => simp [ha, hb] at htie
          | some n =>
            simp [ha, hb] at htie ⊢
            split <;> omega
      · simp [h1, h2, h3]

/-- C3: `sortCards` is stable for each of the three sort fields and both
orders: two cards whose sort keys compare equal keep their relative order, and
the cards that tie with a given card appear in the output exactly as they do in
the input.  For the `runtime` field the cards carry integer runtimes. -/
theorem C3_sortCards_stable (h : Host) (cards : List Card) (sortBy order : String)
    (hfield : sortBy = "title" ∨ sortBy = "rating" ∨ sortBy = "runtime")
    (hruntime : sortBy = "runtime" → ∀ c ∈ cards, hasIntegerRuntime c = true) :
    (∀ a b, compareCards h sortBy "asc" a b = some 0 → List.Sublist [a, b] cards →
      List.Sublist [a, b] (sortCards h cards sortBy order)) ∧
    (∀ a ∈ cards,
      (sortCards h cards sortBy order).filter
          (fun c => decide (compareCards h sortBy "asc" a c = some 0)) =
        cards.filter (fun c => decide (compareCards h sortBy "asc" a c = some 0))) := by
  refine ⟨fun a b htie hab =>
    arraySort_pair_stable _ cards a b (compareCards_tie_any_order h sortBy order a b htie) hab,
    ?_⟩
  intro a ha
  have key : ∀ (cmp : Card → Card → Int) (P : Card → Prop), (∀ c ∈ cards, P c) →
      (∀ x y, P x → P y → compareCards h sortBy order x y =
        some (cmp x y * (if order = "desc" then -1 else 1))) →
      (∀ x y, P x → P y → compareCards h sortBy "asc" x y = some (cmp x y)) →
      Consistent cmp P →
      (sortCards h cards sortBy order).filter
          (fun c => decide (compareCards h sortBy "asc" a c = some 0)) =
        cards.filter (fun c => decide (compareCards h sortBy "asc" a c = some 0)) := by
    intro cmp P hP hord hasc hcons
    have hstable := arraySort_class_stable (compareCards h sortBy order)
      (fun x y => cmp x y * (if order = "desc" then -1 else 1)) P cards hP hord
      (consistent_mul cmp P hcons _ (multiplier_cases order)) a (hP a ha)
    have hpred : ∀ c, P c →
        decide (compareCards h sortBy "asc" a c = some 0) =
          decide (cmp a c * (if order = "desc" then -1 else 1) = 0) := by
      intro c hc
      rw [hasc a c (hP a ha) hc]
      by_cases ho : order = "desc" <;> simp [ho]
    have hleft : (sortCards h cards sortBy order).filter
          (fun c => decide (compareCards h sortBy "asc" a c = some 0)) =
        (sortCards h cards sortBy order).filter
          (fun c => decide (cmp a c * (if order = "desc" then -1 else 1) = 0)) :=
      List.filter_congr (fun c hc => hpred c (hP c ((arraySort_perm _ cards).mem_iff.mp hc)))
    have hright : cards.filter (fun c => decide (compareCards h sortBy "asc" a c = some 0)) =
        cards.filter (fun c => decide (cmp a c * (if order = "desc" then -1 else 1) = 0)) :=
      List.filter_congr (fun c hc => hpred c (hP c hc))
    rw [hleft, hright]
    exact hstable
  rcases hfield with rfl | rfl | rfl
  · exact key (fun x y => h.localeCompare (normalizeText h x.title) (normalizeText h y.title))
      (fun _ => True) (fun _ _ => trivial) (fun x y _ _ => compareCards_title h order x y)
      (fun x y _ _ => by simpa using compareCards_title h "asc" x y)
      (consistent_localeCompare h (fun c : Card => normalizeText h c.title))
  · exact key (fun x y => h.localeCompare x.rating y.rating)
      (fun _ => True) (fun _ _ => trivial) (fun x y _ _ => compareCards_rating h order x y)
      (fun x y _ _ => by simpa using compareCards_rating h "asc" x y)
      (consistent_localeCompare h (fun c : Card => c.rating))
  · exact key (fun x y => (cardRuntime x).getD 0 - (cardRuntime y).getD 0)
      (fun c => hasIntegerRuntime c = true) (hruntime rfl)
      (fun x y hx hy => compareCards_runtime h order x y hx hy)
      (fun x y hx hy => by simpa using compareCards_runtime h "asc" x y hx hy)
      ⟨fun x y _ _ => consistent_runtime.1 x y trivial trivial,
        fun x y z _ _ _ => consistent_runtime.2 x y z trivial trivial trivial⟩

/-! ### Witnesses on the sample catalog -/

/-- C1 on the sample catalog: its records are plain, Monday renders three cards; the search
text ` U ` and the genre `family` leave the card of `Up` alone visible. -/
theorem C1_witness :
    (∀ m ∈ sampleMovies, isPlainMovie m = true) ∧
    renderMovies referenceHost sampleMovies (.on .mon) = .ok sampleCards ∧
    (applyFiltersAndSort referenceHost (some " U ") (some "family") none none sampleCards).1.map
      isVisible = [false, true, false] ∧
    ((applyFiltersAndSort referenceHost (some " U ") (some "family") none none
      sampleCards).1.length = sampleMovies.length) :=
  ⟨by decide, rfl, by decide,
    (C1_filter_step_visibility referenceHost sampleMovies (some " U ") (some "family") none none
      (.on .mon) sampleCards (by decide) rfl).length_eq.symm⟩

/-- C1 (counterexample): a title written with a character reference.
The title `Romeo &amp; Juliet` is not plain; the title element of its card reads
`Romeo & Juliet`; the search text `amp` occurs in the normalized record title,
the genre selection is `all` and Monday has the showtime `19:00`, so (a), (b)
and (c) hold of the movie, and yet the filter step hides the card. -/
theorem C1_counterexample_character_reference :
    (entityTitleMovies.map isPlainMovie = [false]) ∧
    renderMovies referenceHost entityTitleMovies (.on .mon) = .ok entityTitleCards ∧
    (applyFiltersAndSort referenceHost (some "amp") none none none entityTitleCards).1.map
      isVisible = [false] ∧
    (∀ movie ∈ entityTitleMovies,
      (normalizeText referenceHost (orDefault (some "amp") "")).data <:+:
        (normalizeText referenceHost movie.title).data ∧
      orDefault none "all" = "all" ∧
      getShowtimesForDay referenceHost movie (.on .mon) = .ok "19:00") :=
  ⟨by decide, rfl, by decide, by
    intro movie hm
    simp only [entityTitleMovies, List.mem_singleton] at hm
    subst hm
    exact ⟨⟨"romeo &".data, "; juliet".data, rfl⟩, rfl, rfl⟩⟩

/-- C2 on the sample cards: they carry integer runtimes, and sorted by runtime in
descending order they read Heat, Dune, Up. -/
theorem C2_witness :
    (∀ c ∈ sampleCards, hasIntegerRuntime c = true) ∧
    (sortCards referenceHost sampleCards "runtime" "desc").Chain' (fun a b =>
      ∃ m n : Int, cardRuntime a = some m ∧ cardRuntime b = some n ∧ n ≤ m) ∧
    (sortCards referenceHost sampleCards "runtime" "desc").map (fun c => c.title)
      = ["Heat", "Dune", "Up"] :=
  ⟨by decide,
    (C2_sortCards_sorted_permutation referenceHost sampleCards (by decide)).2.2.2.2.2.2.1,
    by decide⟩

/-- C3 on the sample cards listed twice, so that every card ties with its copy. -/
theorem C3_witness :
    (∀ c ∈ sampleCards ++ sampleCards, hasIntegerRuntime c = true) ∧
    (∀ a b, compareCards referenceHost "runtime" "asc" a b = some 0 →
      List.Sublist [a, b] (sampleCards ++ sampleCards) →
      List.Sublist [a, b]
        (sortCards referenceHost (sampleCards ++ sampleCards) "runtime" "desc")) :=
  ⟨by decide,
    (C3_sortCards_stable referenceHost (sampleCards ++ sampleCards) "runtime" "desc"
      (Or.inr (Or.inr rfl)) (fun _ => by decide)).1⟩

/-! ### Ticket form: the validators -/

theorem trimChars_eq_nil_iff (cs : List Char) :
    trimChars cs = [] ↔ ∀ c ∈ cs, isJsWhitespace c = true := by
  unfold trimChars
  rw [List.reverse_eq_nil_iff, List.dropWhile_eq_nil_iff]
  constructor
  · intro hall
    have hnil : cs.dropWhile isJsWhitespace = [] := by
      by_contra hne
      have hhead := List.head_dropWhile_not isJsWhitespace cs hne
      have := hall ((cs.dropWhile isJsWhitespace).head hne)
        (List.mem_reverse.mpr (List.head_mem hne))
      rw [this] at hhead
      exact absurd hhead (by simp)
    exact List.dropWhile_eq_nil_iff.mp hnil
  · intro hall c hc
    exact hall c ((List.dropWhile_sublist _).subset (List.mem_reverse.mp hc))

theorem jsTrim_eq_empty_iff (s : String) :
    jsTrim s = "" ↔ ∀ c ∈ s.data, isJsWhitespace c = true := by
  rw [← trimChars_eq_nil_iff]
  unfold jsTrim
  constructor
  · intro hs
    have := congrArg String.data hs
    simpa using this
  · intro hs
    rw [hs]

theorem includes_singleton (s : String) (c : Char) :
    includes s (String.mk [c]) = true ↔ c ∈ s.data := by
  rw [includes_iff_contiguous]
  constructor
  · rintro ⟨pre, post, hs⟩
    rw [← hs]
    simp
  · intro hc
    obtain ⟨pre, post, hs⟩ := List.append_of_mem hc
    exact ⟨pre, post, by rw [hs]; simp⟩

theorem splitChars_ne_nil (sep : Char) (cs : List Char) : splitChars sep cs ≠ [] := by
  induction cs with
  | nil => simp [splitChars]
  | cons c cs ih =>
    unfold splitChars
    split
    · simp
    · split <;> simp

theorem splitChars_of_not_mem (sep : Char) (cs : List Char) (hs : sep ∉ cs) :
    splitChars sep cs = [cs] := by
  induction cs with
  | nil => rfl
  | cons c cs ih =>
    have hc : c ≠ sep := fun hcs => hs (by simp [hcs])
    have hrest : sep ∉ cs := fun hm => hs (by simp [hm])
    unfold splitChars
    rw [if_neg hc, ih hrest]

theorem splitChars_append_sep (sep : Char) (l d : List Char) (hl : sep ∉ l) :
    splitChars sep (l ++ sep :: d) = l :: splitChars sep d := by
  induction l with
  | nil => simp [splitChars]
  | cons c l ih =>
    have hc : c ≠ sep := fun hcs => hl (by simp [hcs])
    have hrest : sep ∉ l := fun hm => hl (by simp [hm])
    rw [List.cons_append, splitChars, if_neg hc, ih hrest]

theorem splitChars_length_one (sep : Char) (cs : List Char)
    (hlen : (splitChars sep cs).length = 1) : sep ∉ cs := by
  intro hmem
  obtain ⟨l, d, hcs, hl⟩ := List.eq_append_cons_of_mem hmem
  rw [hcs, splitChars_append_sep sep l d hl] at hlen
  have := splitChars_ne_nil sep d
  cases hd : splitChars sep d with
  | nil => exact this hd
  | cons p ps => rw [hd] at hlen; simp at hlen

theorem at_not_whitespace : isJsWhitespace '@' = false := by decide

theorem jsTrim_ne_empty_of_at (e : String) (hat : '@' ∈ e.data) : jsTrim e ≠ "" := by
  intro htrim
  have := (jsTrim_eq_empty_iff e).mp htrim '@' hat
  rw [at_not_whitespace] at this
  exact absurd this (by simp)

theorem string_mk_eq_empty (l : List Char) : String.mk l = "" ↔ l = [] := by
  constructor
  · intro hl
    have := congrArg String.data hl
    simpa using this
  · rintro rfl
    rfl

theorem validateEmail_of_at (e : String) (hat : '@' ∈ e.data) :
    validateEmail e =
      if (splitOnAt e).length ≠ 2 ∨ (splitOnAt e).getD 0 "" = "" ∨ (splitOnAt e).getD 1 "" = "" then
        "Please enter a valid email address."
      else if includes ((splitOnAt e).getD 1 "") "." = false then
        "Please enter a valid email address (e.g., name@example.com)."
      else "" := by
  have htrim := jsTrim_ne_empty_of_at e hat
  have hne : e ≠ "" := by
    rintro rfl
    simp at hat
  have hinc : includes e "@" = true := (includes_singleton e '@').mpr hat
  unfold validateEmail
  simp [htrim, hne, hinc]

theorem validateEmail_one_at (e : String) (l d : List Char) (he : e.data = l ++ '@' :: d)
    (hl : '@' ∉ l) (hd : '@' ∉ d) :
    validateEmail e =
      if l = [] ∨ d = [] then "Please enter a valid email address."
      else if '.' ∈ d then ""
      else "Please enter a valid email address (e.g., name@example.com)." := by
  have hat : '@' ∈ e.data := by rw [he]; simp
  have hsplit : splitOnAt e = [String.mk l, String.mk d] := by
    unfold splitOnAt
    rw [he]
    have h64 : Char.ofNat 64 = '@' := rfl
    rw [h64, splitChars_append_sep '@' l d hl, splitChars_of_not_mem '@' d hd]
    rfl
  rw [validateEmail_of_at e hat, hsplit]
  have hdot : includes (String.mk d) "." = true ↔ '.' ∈ d := includes_singleton (String.mk d) '.'
  by_cases hl0 : l = []
  · simp [hl0]
  · by_cases hd0 : d = []
    · simp [hd0]
    · by_cases hdt : '.' ∈ d
      · simp [string_mk_eq_empty, hl0, hd0, hdt, hdot.mpr hdt]
      · have : includes (String.mk d) "." = false := by
          cases hi : includes (String.mk d) "."
          · rfl
          · exact absurd (hdot.mp hi) hdt
        simp [string_mk_eq_empty, hl0, hd0, hdt, this]

theorem validateEmail_many_at (e : String) (l d : List Char) (he : e.data = l ++ '@' :: d)
    (hl : '@' ∉ l) (hd : '@' ∈ d) :
    validateEmail e = "Please enter a valid email address." := by
  have hat : '@' ∈ e.data := by rw [he]; simp
  have hlen : (splitOnAt e).length ≠ 2 := by
    unfold splitOnAt
    rw [he]
    have h64 : Char.ofNat 64 = '@' := rfl
    rw [h64, splitChars_append_sep '@' l d hl]
    intro hlen
    simp only [List.map_cons, List.length_cons, List.length_map] at hlen
    exact splitChars_length_one '@' d (by omega) hd
  rw [validateEmail_of_at e hat]
  simp [hlen]

/-- C7 (amended): `validateEmail` asks for the address when the text is empty
after trimming; else says the address must contain `@` when it has none; else
rejects it as invalid unless it holds exactly one `@` with text on both sides
(the text is split at every `@`, not at the first one); else asks for a form
like `name@example.com` when the part after the `@` has no dot; else accepts. -/
theorem C7_validateEmail_split_at_every_at (e : String) :
    (jsTrim e = "" → validateEmail e = "Please enter your email address.") ∧
    (jsTrim e ≠ "" → '@' ∉ e.data →
      validateEmail e = "Please enter a valid email address (must contain @).") ∧
    ('@' ∈ e.data →
      (¬ ∃ l d : List Char, e.data = l ++ '@' :: d ∧ '@' ∉ l ∧ '@' ∉ d ∧ l ≠ [] ∧ d ≠ []) →
      validateEmail e = "Please enter a valid email address.") ∧
    (∀ l d : List Char, e.data = l ++ '@' :: d → '@' ∉ l → '@' ∉ d → l ≠ [] → d ≠ [] →
      ('.' ∉ d →
        validateEmail e = "Please enter a valid email address (e.g., name@example.com).") ∧
      ('.' ∈ d → validateEmail e = "")) ∧
    validateEmail "a@b.c" = "" ∧
    validateEmail "abc" = "Please enter a valid email address (must contain @)." ∧
    validateEmail "a@b" = "Please enter a valid email address (e.g., name@example.com)." ∧
    validateEmail "" = "Please enter your email address." := by
  refine ⟨?_, ?_, ?_, ?_, by decide, by decide, by decide, by decide⟩
  · intro htrim
    simp [validateEmail, htrim]
  · intro htrim hat
    have hne : e ≠ "" := by
      rintro rfl
      exact htrim rfl
    have hinc : includes e "@" = false := by
      cases hi : includes e "@"
      · rfl
      · exact absurd ((includes_singleton e '@').mp hi) hat
    simp [validateEmail, htrim, hne, hinc]
  · intro hat hnone
    obtain ⟨l, d, he, hl⟩ := List.eq_append_cons_of_mem hat
    by_cases hd : '@' ∈ d
    · exact validateEmail_many_at e l d he hl hd
    · rw [validateEmail_one_at e l d he hl hd]
      by_cases hl0 : l = []
      · simp [hl0]
      · by_cases hd0 : d = []
        · simp [hd0]
        · exact absurd ⟨l, d, he, hl, hd, hl0, hd0⟩ hnone
  · intro l d he hl hd hl0 hd0
    rw [validateEmail_one_at e l d he hl hd]
    constructor
    · intro hdot
      simp [hl0, hd0, hdot]
    · intro hdot
      simp [hl0, hd0, hdot]

/-- C7 (counterexample): `a@b@c.d` is not empty, contains `@`, splits at its
first `@` into the two non-empty parts `a` and `b@c.d`, and the part after
that `@` contains a dot; `validateEmail` rejects it all the same. -/
theorem C7_counterexample_two_ats :
    jsTrim "a@b@c.d" ≠ "" ∧ includes "a@b@c.d" "@" = true ∧
    "a@b@c.d" = "a" ++ "@" ++ "b@c.d" ∧ includes "a" "@" = false ∧
    includes "b@c.d" "." = true ∧
    validateEmail "a@b@c.d" = "Please enter a valid email address." := by
  decide

/-- C7 on an address with one `@` and a dot after it. -/
theorem C7_witness :
    "ann@example.com".data = "ann".data ++ '@' :: "example.com".data ∧
    validateEmail "ann@example.com" = "" :=
  ⟨by decide,
    ((C7_validateEmail_split_at_every_at "ann@example.com").2.2.2.1 "ann".data
      "example.com".data (by decide) (by decide) (by decide) (by decide) (by decide)).2
      (by decide)⟩

/-! ### Ticket form: names -/

/-- C8 (amended): `validateName` asks for the name when the text is empty after
trimming; else rejects it when some character is neither an ASCII letter, nor a
white space character of the class `\s` (space, tab, line breaks, no-break
space and the other Unicode spaces), nor a hyphen, nor an apostrophe; else
accepts. -/
theorem C8_validateName_whitespace_class (n : String) :
    (jsTrim n = "" → validateName n = "Please enter your full name.") ∧
    (jsTrim n ≠ "" →
      (∃ c ∈ n.data, ¬ ((97 ≤ c.toNat ∧ c.toNat ≤ 122) ∨ (65 ≤ c.toNat ∧ c.toNat ≤ 90) ∨
        isJsWhitespace c = true ∨ c = '-' ∨ c = Char.ofNat 39)) →
      validateName n = "Name can only contain letters, spaces, hyphens, and apostrophes.") ∧
    (jsTrim n ≠ "" →
      (∀ c ∈ n.data, (97 ≤ c.toNat ∧ c.toNat ≤ 122) ∨ (65 ≤ c.toNat ∧ c.toNat ≤ 90) ∨
        isJsWhitespace c = true ∨ c = '-' ∨ c = Char.ofNat 39) →
      validateName n = "") := by
  have hclass : ∀ c : Char, namePatternClass c = true ↔
      ((97 ≤ c.toNat ∧ c.toNat ≤ 122) ∨ (65 ≤ c.toNat ∧ c.toNat ≤ 90) ∨
        isJsWhitespace c = true ∨ c = '-' ∨ c = Char.ofNat 39) := by
    intro c
    have h45 : c.toNat = 45 ↔ c = '-' := by
      constructor
      · intro hc
        rw [← Char.ofNat_toNat c, hc]
      · rintro rfl
        rfl
    have h39 : c.toNat = 39 ↔ c = Char.ofNat 39 := by
      constructor
      · intro hc
        rw [← Char.ofNat_toNat c, hc]
      · rintro rfl
        rfl
    unfold namePatternClass
    simp only [Bool.or_eq_true, Bool.and_eq_true, decide_eq_true_eq, h45, h39]
    tauto
  refine ⟨?_, ?_, ?_⟩
  · intro htrim
    simp [validateName, htrim]
  · rintro htrim ⟨c, hc, hbad⟩
    have hne : n ≠ "" := by
      rintro rfl
      exact htrim rfl
    have htest : namePatternTest n = false := by
      unfold namePatternTest
      have : n.data.all namePatternClass = false := by
        rw [List.all_eq_false]
        exact ⟨c, hc, by rw [hclass]; exact hbad⟩
      simp [this]
    simp [validateName, htrim, hne, htest]
  · intro htrim hall
    have hne : n ≠ "" := by
      rintro rfl
      exact htrim rfl
    have hdata : n.data ≠ [] := by
      intro hd
      exact hne (String.ext hd)
    have htest : namePatternTest n = true := by
      unfold namePatternTest
      have : n.data.all namePatternClass = true := by
        rw [List.all_eq_true]
        intro c hc
        exact (hclass c).mpr (hall c hc)
      simp [this, hdata]
    simp [validateName, htrim, hne, htest]

/-- C8 (counterexample): a name with a tab between two letters is not empty
after trimming and holds a character that is neither an ASCII letter, nor the
space character, nor a hyphen, nor an apostrophe; `validateName` accepts it. -/
theorem C8_counterexample_tab :
    jsTrim (String.mk ['A', Char.ofNat 9, 'B']) ≠ "" ∧
    (∃ c ∈ (String.mk ['A', Char.ofNat 9, 'B']).data,
      ¬ ((97 ≤ c.toNat ∧ c.toNat ≤ 122) ∨ (65 ≤ c.toNat ∧ c.toNat ≤ 90) ∨
        c = ' ' ∨ c = '-' ∨ c = Char.ofNat 39)) ∧
    validateName (String.mk ['A', Char.ofNat 9, 'B']) = "" := by
  refine ⟨by decide, ⟨Char.ofNat 9, by decide, by decide⟩, by decide⟩

/-- C8 on a name that holds a digit. -/
theorem C8_witness :
    jsTrim "Ann 3" ≠ "" ∧
    validateName "Ann 3" = "Name can only contain letters, spaces, hyphens, and apostrophes." :=
  ⟨by decide,
    (C8_validateName_whitespace_class "Ann 3").2.1 (by decide) ⟨'3', by decide, by decide⟩⟩

/-! ### Ticket form: the submit handler -/

/-- C6: with all five error elements present, the submit handler accepts the
submission exactly when every field validates; in every case each error element
shows the message of its field, which is empty for a valid field.  An empty
name with four valid fields is rejected with the name message alone. -/
theorem C6_submit_gate (inputs : FormInputs) (state : FormState)
    (hname : state.errors.name.isSome = true) (hemail : state.errors.email.isSome = true)
    (hmovie : state.errors.movie.isSome = true)
    (hshowtime : state.errors.showtime.isSome = true)
    (hqty : state.errors.qty.isSome = true) :
    ((submit inputs state).accepted = true ↔
      (validateName (inputs.name.getD "") = "" ∧ validateEmail (inputs.email.getD "") = "" ∧
        inputs.movie.getD "" ≠ "" ∧ inputs.showtime.getD "" ≠ "" ∧ inputs.qty.getD "" ≠ "")) ∧
    (submit inputs state).errors =
      { name := some (validateName (inputs.name.getD ""))
        email := some (validateEmail (inputs.email.getD ""))
        movie := some (if inputs.movie.getD "" = "" then "Please select a movie." else "")
        showtime :=
          some (if inputs.showtime.getD "" = "" then "Please choose a showtime." else "")
        qty := some (if inputs.qty.getD "" = "" then "Please choose how many seats you need."
          else "") } ∧
    (inputs.name.getD "" = "" → validateEmail (inputs.email.getD "") = "" →
      inputs.movie.getD "" ≠ "" → inputs.showtime.getD "" ≠ "" → inputs.qty.getD "" ≠ "" →
      (submit inputs state).accepted = false ∧
      (submit inputs state).errors =
        { name := some "Please enter your full name.", email := some "", movie := some "",
          showtime := some "", qty := some "" }) := by
  obtain ⟨tn, htn⟩ := Option.isSome_iff_exists.mp hname
  obtain ⟨te, hte⟩ := Option.isSome_iff_exists.mp hemail
  obtain ⟨tm, htm⟩ := Option.isSome_iff_exists.mp hmovie
  obtain ⟨ts, hts⟩ := Option.isSome_iff_exists.mp hshowtime
  obtain ⟨tq, htq⟩ := Option.isSome_iff_exists.mp hqty
  have herrors : (submit inputs state).errors =
      { name := some (validateName (inputs.name.getD ""))
        email := some (validateEmail (inputs.email.getD ""))
        movie := some (if inputs.movie.getD "" = "" then "Please select a movie." else "")
        showtime :=
          some (if inputs.showtime.getD "" = "" then "Please choose a showtime." else "")
        qty := some (if inputs.qty.getD "" = "" then "Please choose how many seats you need."
          else "") } := by
    unfold submit
    simp only [clearErrors, showError, htn, hte, htm, hts, htq, Option.map_some']
    by_cases h1 : validateName (inputs.name.getD "") = "" <;>
    by_cases h2 : validateEmail (inputs.email.getD "") = "" <;>
    by_cases h3 : inputs.movie.getD "" = "" <;>
    by_cases h4 : inputs.showtime.getD "" = "" <;>
    by_cases h5 : inputs.qty.getD "" = "" <;>
    simp [h1, h2, h3, h4, h5]
  have haccepted : (submit inputs state).accepted = true ↔
      (validateName (inputs.name.getD "") = "" ∧ validateEmail (inputs.email.getD "") = "" ∧
        inputs.movie.getD "" ≠ "" ∧ inputs.showtime.getD "" ≠ "" ∧
        inputs.qty.getD "" ≠ "") := by
    unfold submit
    simp only [clearErrors, showError, htn, hte, htm, hts, htq, Option.map_some']
    by_cases h1 : validateName (inputs.name.getD "") = "" <;>
    by_cases h2 : validateEmail (inputs.email.getD "") = "" <;>
    by_cases h3 : inputs.movie.getD "" = "" <;>
    by_cases h4 : inputs.showtime.getD "" = "" <;>
    by_cases h5 : inputs.qty.getD "" = "" <;>
    simp [h1, h2, h3, h4, h5]
  refine ⟨haccepted, herrors, ?_⟩
  intro h1 h2 h3 h4 h5
  have hvn : validateName (inputs.name.getD "") = "Please enter your full name." := by
    rw [h1]
    rfl
  constructor
  · cases hacc : (submit inputs state).accepted
    · rfl
    · have := (haccepted.mp hacc).1
      rw [hvn] at this
      exact absurd this (by decide)
  · rw [herrors, hvn, h2]
    simp [h3, h4, h5]

/-- C6 on a submission with an empty name and four valid fields. -/
theorem C6_witness :
    ((submit
        { name := some "", email := some "ann@example.com", movie := some "Dune",
          showtime := some "10:00", qty := some "2" }
        { errors := { name := some "", email := some "old", movie := some "", showtime := some "",
                      qty := some "" },
          successMessage := some "", accepted := false }).accepted = false) ∧
    (submit
        { name := some "", email := some "ann@example.com", movie := some "Dune",
          showtime := some "10:00", qty := some "2" }
        { errors := { name := some "", email := some "old", movie := some "", showtime := some "",
                      qty := some "" },
          successMessage := some "", accepted := false }).errors =
      { name := some "Please enter your full name.", email := some "", movie := some "",
        showtime := some "", qty := some "" } :=
  (C6_submit_gate
    { name := some "", email := some "ann@example.com", movie := some "Dune",
      showtime := some "10:00", qty := some "2" }
    { errors := { name := some "", email := some "old", movie := some "", showtime := some "",
                  qty := some "" },
      successMessage := some "", accepted := false }
    rfl rfl rfl rfl rfl).2.2 rfl (by decide) (by decide) (by decide) (by decide)

/-! ### Showtime options of the ticket form -/

theorem utf16Units_ne_nil (c : Char) : utf16Units c ≠ [] := by
  unfold utf16Units
  split <;> simp

theorem char_toNat_valid (c : Char) :
    c.toNat < 0xD800 ∨ (0xDFFF < c.toNat ∧ c.toNat < 0x110000) := by
  have := c.valid
  unfold UInt32.isValidChar Nat.isValidChar at this
  exact this

theorem char_eq_of_toNat_eq (c d : Char) (hcd : c.toNat = d.toNat) : c = d := by
  rw [← Char.ofNat_toNat c, ← Char.ofNat_toNat d, hcd]

theorem utf16Units_append_inj (c d : Char) (xs ys : List Nat)
    (heq : utf16Units c ++ xs = utf16Units d ++ ys) : c = d ∧ xs = ys := by
  have hc := char_toNat_valid c
  have hd := char_toNat_valid d
  unfold utf16Units at heq
  by_cases h1 : c.toNat < 0x10000 <;> by_cases h2 : d.toNat < 0x10000
  · simp only [h1, h2, if_true, List.singleton_append, List.cons.injEq] at heq
    exact ⟨char_eq_of_toNat_eq c d heq.1, heq.2⟩
  · simp only [h1, h2, if_true, if_false, List.singleton_append, List.cons_append,
      List.nil_append, List.cons.injEq] at heq
    omega
  · simp only [h1, h2, if_true, if_false, List.singleton_append, List.cons_append,
      List.nil_append, List.cons.injEq] at heq
    omega
  · simp only [h1, h2, if_false, List.cons_append, List.nil_append, List.cons.injEq] at heq
    refine ⟨char_eq_of_toNat_eq c d (by omega), heq.2.2⟩

theorem codeUnits_injective (a b : String) (hab : codeUnits a = codeUnits b) : a = b := by
  have key : ∀ xs ys : List Char,
      xs.foldr (fun c acc => utf16Units c ++ acc) [] =
        ys.foldr (fun c acc => utf16Units c ++ acc) [] → xs = ys := by
    intro xs
    induction xs with
    | nil =>
      intro ys hxy
      cases ys with
      | nil => rfl
      | cons d ds =>
        simp only [List.foldr_nil, List.foldr_cons] at hxy
        have := utf16Units_ne_nil d
        cases hu : utf16Units d with
        | nil => exact absurd hu this
        | cons u us => rw [hu] at hxy; simp at hxy
    | cons c cs ih =>
      intro ys hxy
      cases ys with
      | nil =>
        simp only [List.foldr_nil, List.foldr_cons] at hxy
        have := utf16Units_ne_nil c
        cases hu : utf16Units c with
        | nil => exact absurd hu this
        | cons u us => rw [hu] at hxy; simp at hxy
      | cons d ds =>
        simp only [List.foldr_cons] at hxy
        obtain ⟨hcd, hrest⟩ := utf16Units_append_inj c d _ _ hxy
        rw [hcd, ih ds hrest]
  exact String.ext (key a.data b.data hab)

theorem defaultCompare_eq_zero (a b : String) : defaultCompare a b = 0 ↔ a = b := by
  unfold defaultCompare
  rw [lexCompare_eq_zero]
  exact ⟨codeUnits_injective a b, fun hab => by rw [hab]⟩

theorem consistent_defaultCompare :
    Consistent (fun a b : String => defaultCompare a b) (fun _ => True) :=
  ⟨fun _ _ _ _ => lexCompare_flip _ _, fun _ _ _ _ _ _ => lexCompare_trans _ _ _⟩

theorem setAdd_nodup (set : List String) (value : String) (hs : set.Nodup) :
    (setAdd set value).Nodup := by
  unfold setAdd
  split
  · exact hs
  · rename_i hmem
    rw [List.nodup_append]
    refine ⟨hs, List.nodup_singleton _, ?_⟩
    intro x hx hy
    rw [List.mem_singleton] at hy
    exact hmem (hy ▸ hx)

theorem mem_setAdd (set : List String) (value t : String) :
    t ∈ setAdd set value ↔ t ∈ set ∨ t = value := by
  unfold setAdd
  split
  · rename_i hmem
    constructor
    · exact Or.inl
    · rintro (ht | rfl)
      · exact ht
      · exact hmem
  · simp

theorem foldl_setAdd_nodup (values set : List String) (hs : set.Nodup) :
    (values.foldl setAdd set).Nodup := by
  induction values generalizing set with
  | nil => exact hs
  | cons v vs ih => exact ih _ (setAdd_nodup set v hs)

theorem mem_foldl_setAdd (values set : List String) (t : String) :
    t ∈ values.foldl setAdd set ↔ t ∈ set ∨ t ∈ values := by
  induction values generalizing set with
  | nil => simp
  | cons v vs ih =>
    rw [List.foldl_cons, ih, mem_setAdd, List.mem_cons]
    tauto

theorem allTimes_nodup (obj : List (String × List String)) (set : List String)
    (hs : set.Nodup) :
    (obj.foldl (fun set dayTimes => dayTimes.2.foldl setAdd set) set).Nodup := by
  induction obj generalizing set with
  | nil => exact hs
  | cons p ps ih => exact ih _ (foldl_setAdd_nodup p.2 set hs)

theorem mem_allTimes (obj : List (String × List String)) (set : List String) (t : String) :
    t ∈ obj.foldl (fun set dayTimes => dayTimes.2.foldl setAdd set) set ↔
      t ∈ set ∨ ∃ p ∈ obj, t ∈ p.2 := by
  induction obj generalizing set with
  | nil => simp
  | cons p ps ih =>
    rw [List.foldl_cons, ih, mem_foldl_setAdd]
    simp only [List.mem_cons, exists_eq_or_imp]
    tauto

/-- C9 (amended): when a title is selected (the value is not the empty placeholder) and
the first catalog movie with that title, compared in lower case, has a
`showtimes` object, the options that `updateShowtimes` puts after the
placeholder are strictly ascending in the order of UTF-16 code units, have no
duplicates, and are exactly the time strings stored for that movie on some
day. -/
theorem C9_updateShowtimes_sorted_distinct_union (h : Host) (MOVIES : List Movie)
    (current : List (String × String)) (movieTitle : String) (movie : Movie)
    (obj : List (String × List String))
    (htitle : movieTitle ≠ "")
    (hfind : MOVIES.find? (fun m => h.toLowerCase m.title == h.toLowerCase movieTitle)
      = some movie)
    (hobj : movie.showtimes = some obj) :
    ∃ times : List String,
      updateShowtimes h MOVIES (some current) movieTitle =
        some (("", "Select a showtime...") :: times.map (fun time => (time, time))) ∧
      times.Pairwise (fun a b => defaultCompare a b < 0) ∧
      times.Nodup ∧
      ∀ t, t ∈ times ↔ ∃ p ∈ obj, t ∈ p.2 := by
  refine ⟨arraySort (fun a b => some (defaultCompare a b))
    (obj.foldl (fun set dayTimes => dayTimes.2.foldl setAdd set) []), ?_, ?_, ?_, ?_⟩
  · simp [updateShowtimes, htitle, hfind, hobj]
  · have hnodup : (arraySort (fun a b => some (defaultCompare a b))
        (obj.foldl (fun set dayTimes => dayTimes.2.foldl setAdd set) [])).Nodup :=
      (arraySort_perm _ _).nodup_iff.mpr (allTimes_nodup obj [] List.nodup_nil)
    have hsorted := arraySort_pairwise (fun a b => some (defaultCompare a b))
      (fun a b => defaultCompare a b) (fun _ => True)
      (obj.foldl (fun set dayTimes => dayTimes.2.foldl setAdd set) [])
      (fun _ _ => trivial) (fun _ _ _ _ => rfl) consistent_defaultCompare
    refine (hsorted.and hnodup).imp ?_
    rintro a b ⟨hle, hne⟩
    dsimp only at hle
    have : defaultCompare a b ≠ 0 := fun h0 => hne ((defaultCompare_eq_zero a b).mp h0)
    omega
  · exact (arraySort_perm _ _).nodup_iff.mpr (allTimes_nodup obj [] List.nodup_nil)
  · intro t
    rw [(arraySort_perm _ _).mem_iff, mem_allTimes]
    simp

/-- C9 on the sample catalog: selecting `DUNE` offers the three distinct times of Dune in
ascending order. -/
theorem C9_witness :
    updateShowtimes referenceHost sampleMovies (some []) "DUNE" =
      some [("", "Select a showtime..."), ("10:00", "10:00"), ("14:30", "14:30"),
        ("18:00", "18:00")] ∧
    ∃ times : List String,
      updateShowtimes referenceHost sampleMovies (some []) "DUNE" =
        some (("", "Select a showtime...") :: times.map (fun time => (time, time))) ∧
      times.Pairwise (fun a b => defaultCompare a b < 0) ∧
      times.Nodup ∧
      ∀ t, t ∈ times ↔
        ∃ p ∈ [("mon", ["14:30", "10:00"]), ("wed", ["18:00"])], t ∈ p.2 :=
  ⟨by decide,
    C9_updateShowtimes_sorted_distinct_union referenceHost sampleMovies [] "DUNE"
      { id := "dune", title := "Dune", genre := "scifi", rating := "PG-13",
        runtime := .number 155, screen := some 1,
        showtimes := some [("mon", ["14:30", "10:00"]), ("wed", ["18:00"])] }
      [("mon", ["14:30", "10:00"]), ("wed", ["18:00"])] (by decide) (by decide) rfl⟩

/-! ### Schedule page: grouping the entries of a day -/

theorem generateSchedule_find (h : Host) (MOVIES : List Movie) (day : Weekday) :
    (generateSchedule h MOVIES).find? (fun p => p.1 = day) =
      some (day, { label := dayLabels day,
                   entries := arraySort (fun a b => some (h.localeCompare a.time b.time))
                     (emitEntries MOVIES day) }) := by
  cases day <;> rfl

theorem groupByMovie_snoc (entries : List ScheduleEntry) (entry : ScheduleEntry) :
    groupByMovie (entries ++ [entry]) =
      match groupByMovie entries with
      | .error e => .error e
      | .ok a => groupStep a entry := by
  unfold groupByMovie
  rw [List.foldl_append]
  rfl

theorem headD_append_of_ne_nil (l l' : List String) (d : String) (hl : l ≠ []) :
    (l ++ l').headD d = l.headD d := by
  cases l with
  | nil => exact absurd rfl hl
  | cons a l => rfl

theorem map_extend_of_not_mem (G : List (String × GroupedRow)) (title time : String)
    (hnot : title ∉ G.map (fun p => p.1)) :
    G.map (fun p =>
      if p.1 = title then (p.1, { p.2 with times := p.2.times ++ [time] }) else p) = G := by
  induction G with
  | nil => rfl
  | cons p G ih =>
    have hp : p.1 ≠ title := fun hpt => hnot (by simp [hpt])
    have hG : title ∉ G.map (fun p => p.1) := fun hm => hnot (by simp at hm ⊢; exact Or.inr hm)
    rw [List.map_cons, ih hG, if_neg hp]

theorem sum_lengths_extend (G : List (String × GroupedRow)) (title time : String)
    (hnodup : (G.map (fun p => p.1)).Nodup) (hmem : title ∈ G.map (fun p => p.1)) :
    ((G.map (fun p =>
        if p.1 = title then (p.1, { p.2 with times := p.2.times ++ [time] }) else p)).map
      (fun p => p.2.times.length)).sum =
      (G.map (fun p => p.2.times.length)).sum + 1 := by
  induction G with
  | nil => simp at hmem
  | cons p G ih =>
    rw [List.map_cons, List.nodup_cons] at hnodup
    by_cases hp : p.1 = title
    · have hG : title ∉ G.map (fun p => p.1) := hp ▸ hnodup.1
      rw [List.map_cons, map_extend_of_not_mem G title time hG, if_pos hp]
      simp only [List.map_cons, List.sum_cons, List.length_append, List.length_singleton]
      omega
    · have hG : title ∈ G.map (fun p => p.1) := by
        rw [List.map_cons, List.mem_cons] at hmem
        rcases hmem with hm | hm
        · exact absurd hm.symm hp
        · exact hm
      rw [List.map_cons, if_neg hp]
      simp only [List.map_cons, List.sum_cons]
      rw [ih hnodup.2 hG]
      omega

theorem filter_extend (G : List (String × GroupedRow)) (title time : String)
    (q : String → Bool) (hne : ∀ p ∈ G, p.2.times ≠ []) :
    ((G.map (fun p =>
        if p.1 = title then (p.1, { p.2 with times := p.2.times ++ [time] }) else p)).filter
      (fun p => q (p.2.times.headD ""))).map (fun p => p.1) =
      (G.filter (fun p => q (p.2.times.headD ""))).map (fun p => p.1) := by
  induction G with
  | nil => rfl
  | cons p G ih =>
    have ihG := ih (fun x hx => hne x (by simp [hx]))
    have hp := hne p (by simp)
    rw [List.map_cons]
    by_cases hpt : p.1 = title
    · rw [if_pos hpt]
      simp only [List.filter_cons, headD_append_of_ne_nil _ _ _ hp]
      split
      · simp only [List.map_cons]
        rw [ihG]
      · exact ihG
    · rw [if_neg hpt]
      simp only [List.filter_cons]
      split
      · simp only [List.map_cons]
        rw [ihG]
      · exact ihG

/-- What the `reduce` of `renderSchedule` builds from entries whose titles are
not inherited property names: one group per title, each with the times of its
title in entry order, no time lost or repeated, and the groups whose first time
passes a test in the order in which the entries passing it name their titles. -/
theorem groupByMovie_spec (entries : List ScheduleEntry)
    (hsafe : ∀ e ∈ entries, e.movie ∉ objectPrototypeKeys) :
    ∃ G, groupByMovie entries = .ok G ∧
      (G.map (fun p => p.1)).Nodup ∧
      (∀ p ∈ G, p.2.movie = p.1 ∧ p.2.times ≠ [] ∧
        List.Sublist p.2.times (entries.map (fun e => e.time))) ∧
      (G.map (fun p => p.2.times.length)).sum = entries.length ∧
      (∀ q : String → Bool,
        List.Sublist ((G.filter (fun p => q (p.2.times.headD ""))).map (fun p => p.1))
          ((entries.filter (fun e => q e.time)).map (fun e => e.movie))) := by
  induction entries using List.reverseRecOn with
  | nil =>
    exact ⟨[], rfl, List.nodup_nil, fun p hp => by simp at hp, rfl, fun q => by simp⟩
  | append_singleton entries entry ih =>
    obtain ⟨G, hG, hnodup, hrows, hsum, hfilter⟩ :=
      ih (fun e he => hsafe e (by simp [he]))
    have hentry : entry.movie ∉ objectPrototypeKeys := hsafe entry (by simp)
    rw [groupByMovie_snoc, hG]
    by_cases hown : G.any (fun p => p.1 == entry.movie) = true
    · have hmem : entry.movie ∈ G.map (fun p => p.1) := by
        rw [List.any_eq_true] at hown
        obtain ⟨p, hp, hpe⟩ := hown
        rw [List.mem_map]
        exact ⟨p, hp, by simpa using hpe⟩
      have hstep : groupStep G entry = .ok (G.map (fun p =>
          if p.1 = entry.movie then
            (p.1, { p.2 with times := p.2.times ++ [entry.time] }) else p)) := by
        simp only [groupStep, hown, if_true]
      refine ⟨_, hstep, ?_, ?_, ?_, ?_⟩
      · have : (G.map (fun p =>
            if p.1 = entry.movie then
              (p.1, { p.2 with times := p.2.times ++ [entry.time] }) else p)).map
            (fun p => p.1) = G.map (fun p => p.1) := by
          rw [List.map_map]
          apply List.map_congr_left
          intro p _
          by_cases hp : p.1 = entry.movie <;> simp [hp]
        rw [this]
        exact hnodup
      · intro p' hp'
        rw [List.mem_map] at hp'
        obtain ⟨p, hp, rfl⟩ := hp'
        obtain ⟨h1, h2, h3⟩ := hrows p hp
        by_cases hpe : p.1 = entry.movie
        · rw [if_pos hpe]
          refine ⟨h1, by simp, ?_⟩
          rw [List.map_append]
          exact List.Sublist.append h3 (List.Sublist.refl _)
        · rw [if_neg hpe]
          refine ⟨h1, h2, ?_⟩
          rw [List.map_append]
          exact h3.trans (List.sublist_append_left _ _)
      · rw [sum_lengths_extend G entry.movie entry.time hnodup hmem, hsum]
        simp
      · intro q
        rw [filter_extend G entry.movie entry.time q (fun p hp => (hrows p hp).2.1)]
        rw [List.filter_append, List.map_append]
        exact (hfilter q).trans (List.sublist_append_left _ _)
    · have hnot : entry.movie ∉ G.map (fun p => p.1) := by
        intro hmem
        rw [List.mem_map] at hmem
        obtain ⟨p, hp, hpe⟩ := hmem
        exact hown (List.any_eq_true.mpr ⟨p, hp, by simpa using hpe⟩)
      have hstep : groupStep G entry = .ok (G ++ [(entry.movie,
          { movie := entry.movie, rating := entry.rating, screen := entry.screen,
            times := [entry.time] })]) := by
        simp only [groupStep, hown, hentry, if_false]
        rfl
      refine ⟨_, hstep, ?_, ?_, ?_, ?_⟩
      · rw [List.map_append, List.nodup_append]
        refine ⟨hnodup, by simp, ?_⟩
        intro x hx hy
        simp only [List.map_cons, List.map_nil, List.mem_singleton] at hy
        exact hnot (hy ▸ hx)
      · intro p hp
        rw [List.mem_append, List.mem_singleton] at hp
        rcases hp with hp | rfl
        · obtain ⟨h1, h2, h3⟩ := hrows p hp
          refine ⟨h1, h2, ?_⟩
          rw [List.map_append]
          exact h3.trans (List.sublist_append_left _ _)
        · refine ⟨rfl, by simp, ?_⟩
          rw [List.map_append]
          exact List.sublist_append_right _ _
      · rw [List.map_append, List.sum_append, hsum]
        simp
      · intro q
        rw [List.filter_append, List.filter_append, List.map_append, List.map_append]
        refine List.Sublist.append (hfilter q) ?_
        by_cases hq : q entry.time = true
        · simp [List.filter_cons, hq]
        · simp [List.filter_cons, hq]

/-! ### Schedule page: `Object.values` and the emitted entries -/

theorem objectValues_of_no_index {β : Type} (props : List (String × β))
    (hnone : ∀ p ∈ props, arrayIndex? p.1 = none) :
    objectValues props = props.map (fun p => p.2) := by
  have hindexed : props.filterMap (fun p => (arrayIndex? p.1).map (fun i => (i, p.2))) = [] := by
    rw [List.filterMap_eq_nil_iff]
    intro p hp
    simp [hnone p hp]
  have hnamed : props.filter (fun p => (arrayIndex? p.1).isNone) = props := by
    rw [List.filter_eq_self]
    intro p hp
    simp [hnone p hp]
  unfold objectValues
  simp only [hindexed, hnamed]
  rfl

theorem objectValues_perm {β : Type} (props : List (String × β)) :
    (objectValues props).Perm (props.map (fun p => p.2)) := by
  have hindexed : (props.filterMap (fun p => (arrayIndex? p.1).map (fun i => (i, p.2)))).map
      (fun p => p.2) = (props.filter (fun p => (arrayIndex? p.1).isSome)).map (fun p => p.2) := by
    induction props with
    | nil => rfl
    | cons p props ih =>
      cases hp : arrayIndex? p.1 with
      | none => simpa [List.filterMap_cons, List.filter_cons, hp] using ih
      | some i => simpa [List.filterMap_cons, List.filter_cons, hp] using ih
  unfold objectValues
  have hsort := ((stableSort_perm (fun a b : Nat × β => decide (a.1 ≤ b.1))
    (props.filterMap (fun p => (arrayIndex? p.1).map (fun i => (i, p.2))))).map (fun p => p.2))
  rw [hindexed] at hsort
  refine (hsort.append (List.Perm.refl _)).trans ?_
  rw [← List.map_append]
  apply List.Perm.map
  have := List.filter_append_perm (fun p : String × β => (arrayIndex? p.1).isSome) props
  refine List.Perm.trans ?_ this
  apply List.Perm.append (List.Perm.refl _)
  have hfun : (fun p : String × β => (arrayIndex? p.1).isNone) =
      (fun p => !(arrayIndex? p.1).isSome) := by
    funext p
    cases arrayIndex? p.1 <;> rfl
  rw [hfun]

theorem mem_emitEntries (MOVIES : List Movie) (day : Weekday) (e : ScheduleEntry)
    (he : e ∈ emitEntries MOVIES day) : ∃ m ∈ MOVIES, e.movie = m.title := by
  induction MOVIES with
  | nil => simp [emitEntries] at he
  | cons movie rest ih =>
    rw [emitEntries, List.mem_append] at he
    rcases he with he | he
    · rw [List.mem_map] at he
      obtain ⟨t, _, rfl⟩ := he
      exact ⟨movie, by simp, rfl⟩
    · obtain ⟨m, hm, hem⟩ := ih he
      exact ⟨m, by simp [hm], hem⟩

theorem length_emitEntries (MOVIES : List Movie) (day : Weekday) :
    (emitEntries MOVIES day).length = (MOVIES.map (fun m => (movieTimes m day).length)).sum := by
  induction MOVIES with
  | nil => rfl
  | cons movie rest ih =>
    rw [emitEntries, List.length_append, List.length_map, ih]
    simp

theorem nodup_sublist_emitEntries (MOVIES : List Movie) (day : Weekday) (l : List String)
    (hnodup : l.Nodup)
    (hsub : List.Sublist l ((emitEntries MOVIES day).map (fun e => e.movie))) :
    List.Sublist l (MOVIES.map (fun m => m.title)) := by
  induction MOVIES generalizing l with
  | nil =>
    simpa [emitEntries] using hsub
  | cons movie rest ih =>
    rw [emitEntries, List.map_append] at hsub
    obtain ⟨l1, l2, rfl, h1, h2⟩ := List.sublist_append_iff.mp hsub
    rw [List.nodup_append] at hnodup
    have hl2 := ih l2 hnodup.2.1 h2
    have hall : ∀ x ∈ l1, x = movie.title := by
      intro x hx
      have := h1.subset hx
      simp only [List.map_map, List.mem_map, Function.comp] at this
      obtain ⟨t, _, rfl⟩ := this
      rfl
    rw [List.map_cons]
    cases l1 with
    | nil => exact (List.nil_append l2 ▸ hl2).cons _
    | cons a l1 =>
      have ha : a = movie.title := hall a (by simp)
      cases l1 with
      | nil =>
        subst ha
        exact hl2.cons₂ _
      | cons b l1 =>
        have hb : b = movie.title := hall b (by simp)
        have h1nodup := hnodup.1
        rw [ha, hb] at h1nodup
        simp at h1nodup

/-! ### Schedule page: the rows of a day -/

theorem renderSchedule_of_groups (h : Host) (MOVIES : List Movie) (day : Weekday)
    (G : List (String × GroupedRow))
    (hG : groupByMovie (arraySort (fun a b => some (h.localeCompare a.time b.time))
      (emitEntries MOVIES day)) = .ok G) :
    renderSchedule h (generateSchedule h MOVIES) day =
      .ok (arraySort
        (fun a b => some (h.localeCompare (a.times.headD "") (b.times.headD "")))
        (objectValues G)) := by
  unfold renderSchedule
  rw [generateSchedule_find]
  simp only
  by_cases hnil : arraySort (fun a b => some (h.localeCompare a.time b.time))
      (emitEntries MOVIES day) = []
  · rw [hnil] at hG
    have hG' : G = [] := by
      simp only [groupByMovie, List.foldl_nil, Except.ok.injEq] at hG
      exact hG.symm
    rw [if_pos hnil, hG']
    rfl
  · rw [if_neg hnil, hG]

theorem sortedEntries_safe (h : Host) (MOVIES : List Movie) (day : Weekday)
    (hsafe : ∀ m ∈ MOVIES, m.title ∉ objectPrototypeKeys) :
    ∀ e ∈ arraySort (fun a b => some (h.localeCompare a.time b.time)) (emitEntries MOVIES day),
      e.movie ∉ objectPrototypeKeys := by
  intro e he
  obtain ⟨m, hm, hem⟩ := mem_emitEntries MOVIES day e ((arraySort_perm _ _).mem_iff.mp he)
  rw [hem]
  exact hsafe m hm

theorem mem_objectValues {β : Type} (props : List (String × β)) (r : β)
    (hr : r ∈ objectValues props) : ∃ p ∈ props, p.2 = r := by
  have := (objectValues_perm props).mem_iff.mp hr
  rw [List.mem_map] at this
  exact this

theorem localeCompare_tie_class (h : Host) (t a b : String)
    (ha : h.localeCompare a t = 0) (hb : h.localeCompare b t = 0) :
    h.localeCompare a b = 0 := by
  unfold Host.localeCompare at ha hb ⊢
  rw [lexCompare_eq_zero] at ha hb ⊢
  rw [ha, hb]

/-- C4 (amended): for a catalog none of whose titles is a property name
inherited from `Object.prototype`, the schedule of every weekday is rendered,
every row carries at least one time, the times of a row are in ascending
order, the rows are in ascending order of their first (earliest) time and no
title has two rows; when moreover no title is an array index such as `1917`,
the rows that share an earliest time stand in catalog order. -/
theorem C4_schedule_rows_ordered (h : Host) (MOVIES : List Movie) (day : Weekday)
    (hsafe : ∀ m ∈ MOVIES, m.title ∉ objectPrototypeKeys) :
    ∃ rows, renderSchedule h (generateSchedule h MOVIES) day = .ok rows ∧
      (∀ r ∈ rows, r.times ≠ [] ∧
        r.times.Pairwise (fun s t => h.localeCompare s t ≤ 0)) ∧
      rows.Pairwise (fun a b =>
        h.localeCompare (a.times.headD "") (b.times.headD "") ≤ 0) ∧
      (rows.map (fun r => r.movie)).Nodup ∧
      ((∀ m ∈ MOVIES, arrayIndex? m.title = none) →
        ∀ t : String,
          List.Sublist
            ((rows.filter (fun r => decide (h.localeCompare (r.times.headD "") t = 0))).map
              (fun r => r.movie))
            (MOVIES.map (fun m => m.title))) := by
  obtain ⟨G, hG, hnodup, hrows, -, hfilter⟩ :=
    groupByMovie_spec _ (sortedEntries_safe h MOVIES day hsafe)
  have hsorted := arraySort_pairwise (fun a b : ScheduleEntry =>
      some (h.localeCompare a.time b.time))
    (fun a b => h.localeCompare a.time b.time) (fun _ => True) (emitEntries MOVIES day)
    (fun _ _ => trivial) (fun _ _ _ _ => rfl)
    (consistent_localeCompare h (fun e : ScheduleEntry => e.time))
  have hkeys : (G.map (fun p => p.2)).map (fun r => r.movie) = G.map (fun p => p.1) := by
    rw [List.map_map]
    exact List.map_congr_left (fun p hp => (hrows p hp).1)
  refine ⟨_, renderSchedule_of_groups h MOVIES day G hG, ?_, ?_, ?_, ?_⟩
  · intro r hr
    obtain ⟨p, hp, rfl⟩ := mem_objectValues G r ((arraySort_perm _ _).mem_iff.mp hr)
    obtain ⟨-, hne, hsub⟩ := hrows p hp
    refine ⟨hne, List.Pairwise.sublist hsub ?_⟩
    rw [List.pairwise_map]
    exact hsorted
  · exact arraySort_pairwise _
      (fun a b : GroupedRow => h.localeCompare (a.times.headD "") (b.times.headD ""))
      (fun _ => True) _ (fun _ _ => trivial) (fun _ _ _ _ => rfl)
      (consistent_localeCompare h (fun r : GroupedRow => r.times.headD ""))
  · have hperm := ((arraySort_perm
      (fun a b : GroupedRow => some (h.localeCompare (a.times.headD "") (b.times.headD "")))
      (objectValues G)).trans (objectValues_perm G)).map (fun r => r.movie)
    rw [hperm.nodup_iff, hkeys]
    exact hnodup
  · intro hindex t
    have hnone : ∀ p ∈ G, arrayIndex? p.1 = none := by
      intro p hp
      have hsub := hfilter (fun _ => true)
      simp only [List.filter_true] at hsub
      have hmem : p.1 ∈ G.map (fun p => p.1) := List.mem_map.mpr ⟨p, hp, rfl⟩
      have := hsub.subset hmem
      rw [List.mem_map] at this
      obtain ⟨e, he, hep⟩ := this
      obtain ⟨m, hm, hem⟩ := mem_emitEntries MOVIES day e ((arraySort_perm _ _).mem_iff.mp he)
      rw [← hep, hem]
      exact hindex m hm
    rw [objectValues_of_no_index G hnone]
    have hstable : (arraySort
        (fun a b : GroupedRow => some (h.localeCompare (a.times.headD "") (b.times.headD "")))
        (G.map (fun p => p.2))).filter
          (fun r => decide (h.localeCompare (r.times.headD "") t = 0)) =
        (G.map (fun p => p.2)).filter
          (fun r => decide (h.localeCompare (r.times.headD "") t = 0)) := by
      unfold arraySort
      apply stableSort_filter
      intro x _ y _ hx hy
      simp only [decide_eq_true_eq] at hx hy ⊢
      rw [localeCompare_tie_class h t _ _ hx hy]
    have hentries : (arraySort (fun a b : ScheduleEntry => some (h.localeCompare a.time b.time))
        (emitEntries MOVIES day)).filter (fun e => decide (h.localeCompare e.time t = 0)) =
        (emitEntries MOVIES day).filter (fun e => decide (h.localeCompare e.time t = 0)) := by
      unfold arraySort
      apply stableSort_filter
      intro x _ y _ hx hy
      simp only [decide_eq_true_eq] at hx hy ⊢
      rw [localeCompare_tie_class h t _ _ hx hy]
    have hleft : ((G.map (fun p => p.2)).filter
          (fun r => decide (h.localeCompare (r.times.headD "") t = 0))).map (fun r => r.movie) =
        (G.filter (fun p => decide (h.localeCompare (p.2.times.headD "") t = 0))).map
          (fun p => p.1) := by
      rw [List.filter_map, List.map_map]
      apply List.map_congr_left
      intro p hp
      exact (hrows p (List.mem_filter.mp hp).1).1
    rw [hstable, hleft]
    have hsub := hfilter (fun s => decide (h.localeCompare s t = 0))
    rw [hentries] at hsub
    apply nodup_sublist_emitEntries MOVIES day
    · exact List.Nodup.sublist ((List.filter_sublist G).map (fun p => p.1)) hnodup
    · exact hsub.trans
        ((List.filter_sublist (emitEntries MOVIES day)).map (fun e : ScheduleEntry => e.movie))

/-- C4 (counterexample): `Dune` and `1917` both start at 10:00 on Monday and
`Dune` comes first in the catalog, yet the row of `1917` is rendered first:
`Object.values` lists the group named by an array index before the others. -/
theorem C4_counterexample_numeric_title :
    renderSchedule referenceHost (generateSchedule referenceHost numericTitleMovies) .mon =
      .ok [ { movie := "1917", rating := "R", screen := "Screen 2", times := ["10:00"] },
            { movie := "Dune", rating := "PG-13", screen := "Screen 1", times := ["10:00"] } ] ∧
    numericTitleMovies.map (fun m => m.title) = ["Dune", "1917"] ∧
    ¬ List.Sublist ["1917", "Dune"] (numericTitleMovies.map (fun m => m.title)) := by
  refine ⟨rfl, rfl, by decide⟩

/-- C4 on the sample catalog: the Monday rows are Up and Dune (both from 10:00, in catalog
order) and then Heat. -/
theorem C4_witness :
    (∀ m ∈ sampleMovies, m.title ∉ objectPrototypeKeys) ∧
    renderSchedule referenceHost (generateSchedule referenceHost sampleMovies) .mon =
      .ok [ { movie := "Up", rating := "PG", screen := "Screen 2", times := ["10:00", "14:30"] },
            { movie := "Dune", rating := "PG-13", screen := "Screen 1",
              times := ["10:00", "14:30"] },
            { movie := "Heat", rating := "R", screen := "Screen 1", times := ["21:00"] } ] ∧
    ∃ rows, renderSchedule referenceHost (generateSchedule referenceHost sampleMovies) .mon =
        .ok rows ∧
      (∀ r ∈ rows, r.times ≠ [] ∧
        r.times.Pairwise (fun s t => referenceHost.localeCompare s t ≤ 0)) ∧
      rows.Pairwise (fun a b =>
        referenceHost.localeCompare (a.times.headD "") (b.times.headD "") ≤ 0) ∧
      (rows.map (fun r => r.movie)).Nodup ∧
      ((∀ m ∈ sampleMovies, arrayIndex? m.title = none) →
        ∀ t : String,
          List.Sublist
            ((rows.filter (fun r =>
              decide (referenceHost.localeCompare (r.times.headD "") t = 0))).map
              (fun r => r.movie))
            (sampleMovies.map (fun m => m.title))) :=
  ⟨by decide, rfl, C4_schedule_rows_ordered referenceHost sampleMovies .mon (by decide)⟩

/-! ### Schedule page: completeness -/

/-- For a catalog none of whose titles is an inherited property name, the rows
of a day hold as many times as the catalog stores for that day. -/
theorem schedule_complete_of_safe_titles (h : Host) (MOVIES : List Movie) (day : Weekday)
    (hsafe : ∀ m ∈ MOVIES, m.title ∉ objectPrototypeKeys) :
    ∃ rows, renderSchedule h (generateSchedule h MOVIES) day = .ok rows ∧
      (rows.map (fun r => r.times.length)).sum =
        (MOVIES.map (fun m => (movieTimes m day).length)).sum := by
  obtain ⟨G, hG, -, -, hsum, -⟩ :=
    groupByMovie_spec _ (sortedEntries_safe h MOVIES day hsafe)
  refine ⟨_, renderSchedule_of_groups h MOVIES day G hG, ?_⟩
  have hperm := ((arraySort_perm
    (fun a b : GroupedRow => some (h.localeCompare (a.times.headD "") (b.times.headD "")))
    (objectValues G)).trans (objectValues_perm G)).map (fun r => r.times.length)
  rw [hperm.sum_eq, List.map_map]
  have : (G.map ((fun r : GroupedRow => r.times.length) ∘ fun p => p.2)) =
      G.map (fun p => p.2.times.length) := rfl
  rw [this, hsum, (arraySort_perm _ _).length_eq, length_emitEntries]

/-- C5 (failing input): the catalog stores one showing of `constructor` for
Monday, and rendering Monday throws on every host: `acc['constructor']` is the
inherited `Object` function, so no group is created and `.times.push` fails.
No row is produced for the showing. -/
theorem C5_inherited_title_throws (h : Host) :
    (inheritedTitleMovies.map (fun m => (movieTimes m .mon).length)).sum = 1 ∧
    renderSchedule h (generateSchedule h inheritedTitleMovies) .mon =
      .error "TypeError: Cannot read properties of undefined" := by
  refine ⟨by decide, rfl⟩

/-- C9 (counterexample): the empty selection matches the record whose title is
the empty string, which stores a time for Monday; `updateShowtimes` returns the
placeholder alone. -/
theorem C9_counterexample_empty_title :
    untitledMovies.find?
      (fun m => referenceHost.toLowerCase m.title == referenceHost.toLowerCase "") =
      some { id := "u1", title := "", genre := "drama", rating := "PG",
             runtime := .number 100, screen := some 1,
             showtimes := some [("mon", ["10:00"])] } ∧
    updateShowtimes referenceHost untitledMovies (some []) "" =
      some [("", "Select a showtime...")] := by
  decide

/-! ### Sorting by a runtime that is missing or malformed -/

/-- A record without a `runtime` property is rendered with the attribute text
`undefined`, which `parseInt` reads as `NaN`, not as 0. -/
theorem cardRuntime_missing (movie : Movie) (showtimes : String)
    (hmissing : movie.runtime = .missing) :
    (createMovieCard movie showtimes).runtime = "undefined" ∧
    cardRuntime (createMovieCard movie showtimes) = none := by
  have hparse : parseInt10 "undefined" = none := by decide
  have hne : ("undefined" : String) ≠ "" := by decide
  constructor
  · simp [createMovieCard, hmissing, RuntimeValue.render]
  · simp only [cardRuntime, createMovieCard, hmissing, RuntimeValue.render, if_neg hne]
    exact hparse

/-- The fallback `|| '0'` serves the empty attribute alone. -/
theorem cardRuntime_empty (card : Card) (hempty : card.runtime = "") :
    cardRuntime card = some 0 := by
  simp only [cardRuntime, hempty, if_true]
  decide

/-- A card whose runtime reads as `NaN` makes the comparator of `sortCards`
return `NaN` against every card, in both orders. -/
theorem compareCards_runtime_nan (h : Host) (order : String) (a b : Card)
    (hnan : cardRuntime a = none ∨ cardRuntime b = none) :
    compareCards h "runtime" order a b = none := by
  rcases hnan with ha | hb
  · simp [compareCards, ha]
  · cases ha : cardRuntime a <;> simp [compareCards, ha, hb]

/-- Other renderings of a runtime that is not a number: text without a leading
integer reads as `NaN`, text with one reads as that integer. -/
theorem parseInt10_malformed_examples :
    parseInt10 "abc" = none ∧ parseInt10 "null" = none ∧ parseInt10 "NaN" = none ∧
    parseInt10 "120 mins" = some 120 ∧ parseInt10 "95.5" = some 95 := by
  decide

/-- C11 (failing input): `Heat` runs 170 minutes and `Up` has no runtime.
Sorted ascending by runtime the cards stay in the order Heat, Up, on every host,
because the runtime of `Up` reads as `NaN` and every comparison with it counts
as a tie; with the runtime of `Up` replaced by 0 the order is Up, Heat. -/
theorem C11_missing_runtime_is_not_zero (h : Host) :
    (renderMovies referenceHost missingRuntimeMovies (.on .mon)).map
        (fun cards => cards.map cardRuntime) = .ok [some 170, none] ∧
    (renderMovies referenceHost missingRuntimeMovies (.on .mon)).map
        (fun cards =>
          (applyFiltersAndSort referenceHost none none (some "runtime") (some "asc") cards).2.map
            (fun c => c.title)) = .ok ["Heat", "Up"] ∧
    (renderMovies referenceHost zeroRuntimeMovies (.on .mon)).map
        (fun cards =>
          (applyFiltersAndSort referenceHost none none (some "runtime") (some "asc") cards).2.map
            (fun c => c.title)) = .ok ["Up", "Heat"] ∧
    (∀ heat up up0 : Card, cardRuntime heat = some 170 → cardRuntime up = none →
      cardRuntime up0 = some 0 →
      sortCards h [heat, up] "runtime" "asc" = [heat, up] ∧
      sortCards h [heat, up0] "runtime" "asc" = [up0, heat]) := by
  refine ⟨rfl, rfl, rfl, ?_⟩
  intro heat up up0 hheat hup hup0
  constructor
  · simp [sortCards, arraySort, stableSort, orderedInsert,
      compareCards_runtime_nan h "asc" heat up (Or.inr hup)]
  · simp [sortCards, arraySort, stableSort, orderedInsert, compareCards, hheat, hup0]

end Lumiere
